import Mathlib

/-!
Shallow embedding of the agentic-workflow orchestration engine of this
repository: the iteration service in src/services/be-workflowService.ts
(response normalizer, RAG tool, step/finality guard, provider retry wrapper)
and the loop controller runWorkflowLoop of the App component.  JavaScript
strings are modelled as Lean strings over their characters; JS numbers that
the code keeps integral are modelled as Int or Nat.  Network calls (the
provider fetch and the internet-search endpoint) are external collaborators
and are passed in as oracle functions, exactly at the boundary where the
source performs a fetch; everything after the response arrives is translated
from the source.
-/

namespace Workflow

/-- Characters that the JavaScript regex class \s and String.prototype.trim
treat as whitespace, restricted to the ASCII range this code base produces. -/
def jsSpace (c : Char) : Bool :=
  c == ' ' || c == '\t' || c == '\n' || c == '\r' || c == '\x0b' || c == '\x0c'

/-- Character-wise lower casing (JS toLowerCase on the ASCII inputs handled
here). -/
def lowerStr (s : String) : String := String.mk (s.data.map Char.toLower)

/-- JS String.prototype.trim. -/
def jsTrim (s : String) : String :=
  String.mk (((s.data.dropWhile jsSpace).reverse.dropWhile jsSpace).reverse)

/-- Substring test on character lists (JS String.prototype.includes). -/
def containsChars (pat : List Char) : List Char → Bool
  | [] => pat.isPrefixOf ([] : List Char)
  | c :: cs => pat.isPrefixOf (c :: cs) || containsChars pat cs

/-- Substring test (JS String.prototype.includes / regex literal search). -/
def containsSub (s pat : String) : Bool := containsChars pat.data s.data

/-- JS String.prototype.startsWith. -/
def startsWithStr (s p : String) : Bool := p.data.isPrefixOf s.data

/-- JS String.prototype.endsWith (used for anchored regexes such as
readme\.md$). -/
def endsWithStr (s p : String) : Bool := p.data.isSuffixOf s.data

/-- JS String.prototype.slice(0, n), over characters (identical to UTF-16
units on the ASCII data this code handles). -/
def strTake (s : String) (n : Nat) : String := String.mk (s.data.take n)

/-- JS Array.prototype.join with a separator. -/
def joinStr (sep : String) : List String → String
  | [] => ""
  | [x] => x
  | x :: y :: xs => x ++ sep ++ joinStr sep (y :: xs)

/-- Collects the maximal runs of non-whitespace characters, used to model the
JS split(/\s+/). -/
def splitRunsGo (acc : List String) (cur : List Char) : List Char → List String
  | [] => ((if cur.isEmpty then acc else String.mk cur.reverse :: acc)).reverse
  | c :: cs =>
    if jsSpace c then
      splitRunsGo (if cur.isEmpty then acc else String.mk cur.reverse :: acc) [] cs
    else
      splitRunsGo acc (c :: cur) cs

/-- JS str.split(/\s+/): tokens between maximal whitespace runs, including the
empty boundary tokens JS produces when the string starts or ends with
whitespace, and [""] for the empty string. -/
def jsSplitWs (s : String) : List String :=
  match s.data with
  | [] => [""]
  | c :: cs =>
    let runs := splitRunsGo [] [] (c :: cs)
    let lead := if jsSpace c then [""] else []
    let trail := if jsSpace ((c :: cs).getLast (by simp)) then [""] else []
    lead ++ runs ++ trail

/-- Worker for the JS split(/\n\s*\n/).  A separator is, inside a maximal
whitespace run containing at least two newlines, the span from the first to
the last newline (the greedy \s* with its final backtracked \n); whitespace
of the run before the first newline stays with the preceding chunk and
whitespace after the last newline starts the next chunk.  The worker scans
structurally, buffering the current whitespace run in buf and the current
chunk, reversed, in cur. -/
def splitBlankGo (acc : List String) (cur buf : List Char) : List Char → List String
  | [] =>
    if buf.count '\n' ≥ 2 then
      (String.mk ((buf.reverse.takeWhile (fun d => d != '\n')).reverse) ::
        String.mk (cur.reverse ++ buf.takeWhile (fun d => d != '\n')) :: acc).reverse
    else
      (String.mk (cur.reverse ++ buf) :: acc).reverse
  | c :: cs =>
    if jsSpace c then splitBlankGo acc cur (buf ++ [c]) cs
    else
      if buf.count '\n' ≥ 2 then
        splitBlankGo (String.mk (cur.reverse ++ buf.takeWhile (fun d => d != '\n')) :: acc)
          (c :: (buf.reverse.takeWhile (fun d => d != '\n'))) [] cs
      else
        splitBlankGo acc (c :: (buf.reverse ++ cur)) [] cs

/-- JS str.split(/\n\s*\n/), the paragraph splitter of the RAG tool. -/
def jsSplitBlank (s : String) : List String := splitBlankGo [] [] [] s.data

/-- Decimal value of a digit run, as JS parseInt(ds, 10) computes it for a
string of ASCII digits. -/
def parseDigits (ds : List Char) : Nat :=
  ds.foldl (fun n c => n * 10 + (c.toNat - 48)) 0

/-- Case-insensitive comparison of a character against a lower-case letter. -/
def lowerEq (c d : Char) : Bool := c.toLower == d

/-- Match of the regex /step (\d+)/i anchored at the head of the list:
the literal word step (case-insensitive), one space, then the maximal digit
run, whose value is returned. -/
def stepAtSingle (cs : List Char) : Option Nat :=
  match cs with
  | c1 :: c2 :: c3 :: c4 :: c5 :: rest =>
    if lowerEq c1 's' && lowerEq c2 't' && lowerEq c3 'e' && lowerEq c4 'p' && c5 == ' ' then
      let ds := rest.takeWhile Char.isDigit
      if ds.isEmpty then none else some (parseDigits ds)
    else none
  | _ => none

/-- Leftmost match of /step (\d+)/i over a character list. -/
def findStepSingleAux : List Char → Option Nat
  | [] => none
  | c :: cs =>
    match stepAtSingle (c :: cs) with
    | some n => some n
    | none => findStepSingleAux cs

/-- JS progress.match(/step (\d+)/i) followed by parseInt on the capture, as
used by deriveStepNum of the loop controller. -/
def findStepSingle (s : String) : Option Nat := findStepSingleAux s.data

/-- Match of /step\s+(\d+)/i anchored at the head of the list: the word step,
at least one whitespace character, then the maximal digit run. -/
def stepAtWs (cs : List Char) : Option Nat :=
  match cs with
  | c1 :: c2 :: c3 :: c4 :: rest =>
    if lowerEq c1 's' && lowerEq c2 't' && lowerEq c3 'e' && lowerEq c4 'p' then
      let sp := rest.takeWhile (fun d => jsSpace d)
      if sp.isEmpty then none
      else
        let ds := (rest.drop sp.length).takeWhile Char.isDigit
        if ds.isEmpty then none else some (parseDigits ds)
    else none
  | _ => none

/-- Leftmost match of /step\s+(\d+)/i over a character list. -/
def findStepWsAux : List Char → Option Nat
  | [] => none
  | c :: cs =>
    match stepAtWs (c :: cs) with
    | some n => some n
    | none => findStepWsAux cs

/-- JS progress.match(/step\s+(\d+)/i) followed by parseInt on the capture, as
used by the service helper detectStepNumber. -/
def findStepWs (s : String) : Option Nat := findStepWsAux s.data

/-- JS /step\s+\d+/i.test(progress), used by the loop controller to decide
whether planning must be forced onto step 1. -/
def hasStepWs (s : String) : Bool := (findStepWs s).isSome

/-- The workflow status union of types.ts: running | completed |
needs_clarification | error. -/
inductive Status where
  | running
  | completed
  | needs_clarification
  | error
  deriving DecidableEq, Repr

/-- The resultType union of types.ts: code | text | table. -/
inductive ResultType where
  | code
  | text
  | table
  deriving DecidableEq, Repr

/-- One runLog entry {iteration, agent, summary}.  The agent field is typed
as a string union in the source and compared both case-sensitively (loop
controller) and case-insensitively (final-step rule), so it is kept as a
string here. -/
structure RunLogEntry where
  iteration : Int
  agent : String
  summary : String
  deriving DecidableEq, Repr

/-- One artifact {key, value}. -/
structure Artifact where
  key : String
  value : String
  deriving DecidableEq, Repr

/-- The nested state object of WorkflowState. -/
structure InnerState where
  goal : String
  steps : List String
  initialPlan : List String
  artifacts : List Artifact
  notes : String
  progress : String
  deriving DecidableEq, Repr

/-- The WorkflowState record threaded through the whole run. -/
structure WorkflowState where
  goal : String
  maxIterations : Int
  currentIteration : Int
  status : Status
  runLog : List RunLogEntry
  state : InnerState
  finalResultMarkdown : String
  finalResultSummary : String
  resultType : Option ResultType
  deriving DecidableEq, Repr

/-- Helper _appendNote of be-workflowService.ts: joins notes with a pipe, or
starts them when the existing notes are empty (the only falsy string). -/
def appendNote (existing addition : String) : String :=
  if existing == "" then addition else existing ++ " | " ++ addition

/-- Body of the map inside _enforceRunLogFormat.  The dynamic typeof guards
of the source cannot fire in this typed embedding, where agent and summary
are always strings. -/
def enforceRunLogEntry (e : RunLogEntry) : RunLogEntry :=
  let trimmedSummary := jsTrim e.summary
  let pfx := e.agent ++ ":"
  if startsWithStr (lowerStr trimmedSummary) (lowerStr pfx) then
    { e with summary := trimmedSummary }
  else
    { e with summary := pfx ++ " " ++ trimmedSummary }

/-- Helper _enforceRunLogFormat of be-workflowService.ts. -/
def enforceRunLogFormat (entries : List RunLogEntry) : List RunLogEntry :=
  entries.map enforceRunLogEntry

/-- Match of /^step_\d+_(alt1|alt2|...)/ on an already lower-cased key. -/
def stepNumberedKey (keyLower : String) (alts : List String) : Bool :=
  match keyLower.data with
  | 's' :: 't' :: 'e' :: 'p' :: '_' :: rest =>
    let ds := rest.takeWhile Char.isDigit
    if ds.isEmpty then false
    else
      match rest.drop ds.length with
      | '_' :: tail => alts.any (fun a => a.data.isPrefixOf tail)
      | _ => false
  | _ => false

/-- Test of the processArtifactPatterns list of _autoAssembleReadme against a
key that the caller has already lower-cased (making the /i flags of the
source patterns redundant). -/
def isProcessArtifactKey (keyLower : String) : Bool :=
  startsWithStr keyLower "rag_" ||
  startsWithStr keyLower "internet_" ||
  containsSub keyLower "notes" ||
  endsWithStr keyLower "query" ||
  keyLower == "plan.md" ||
  keyLower == "requirements.md" ||
  stepNumberedKey keyLower ["plan", "refined", "goal"] ||
  stepNumberedKey keyLower ["requirement"] ||
  containsSub keyLower "summary"

/-- Test of the contentArtifactPatterns list of _autoAssembleReadme, applied
to the raw key via the case-insensitive patterns of the source. -/
def isContentArtifactKey (key : String) : Bool :=
  let k := lowerStr key
  startsWithStr k "result." ||
  startsWithStr k "final" ||
  k == "readme.md" ||
  containsSub k "colors" ||
  containsSub k "output" ||
  containsSub k "answer" ||
  containsSub k "findings"

/-- Helper _autoAssembleReadme of be-workflowService.ts.  In this typed
embedding artifact values are always strings, so the non-string branches of
the body computation collapse to the trim branch.  The stable JS sort with
the content-first comparator is exactly a stable partition. -/
def autoAssembleReadme (goal : String) (artifacts : List Artifact) : String :=
  let contentArtifacts := artifacts.filter
    (fun a => !(isProcessArtifactKey (lowerStr a.key)))
  let prioritized :=
    contentArtifacts.filter (fun a => isContentArtifactKey a.key) ++
    contentArtifacts.filter (fun a => !(isContentArtifactKey a.key))
  let sections := (prioritized.map (fun a =>
    let body := jsTrim a.value
    if body == "" then "" else "## " ++ a.key ++ "\n" ++ body ++ "\n")).filter
    (fun s => s != "")
  "# " ++ goal ++ "\n\n" ++ joinStr "\n" sections

/-- Helper _detectStepNumber of be-workflowService.ts. -/
def detectStepNumber (state : WorkflowState) : Nat :=
  match findStepWs state.state.progress with
  | some n => n
  | none => 0

/-- Helper _enforceFinalStepRules of be-workflowService.ts.  The in-place
mutation of state.state.notes in the source is visible in the returned
record and is modelled by the notes component below. -/
def enforceFinalStepRules (state : WorkflowState) : WorkflowState :=
  let totalSteps := state.state.steps.length
  let stepNum := detectStepNumber state
  if totalSteps == 0 || stepNum < totalSteps then state
  else
    let relabel :=
      match state.runLog.getLast? with
      | none => (state.runLog, state.state.notes)
      | some last =>
        if lowerStr last.agent == "qa" then
          (state.runLog.dropLast ++
            [{ last with
                agent := "Worker",
                summary := "Worker (final step): " ++ last.summary }],
           appendNote state.state.notes
             "Final step: QA skipped; treated as Worker completion.")
        else (state.runLog, state.state.notes)
    { state with
        runLog := enforceRunLogFormat relabel.1,
        state := { state.state with notes := relabel.2 } }

/-- Key test of the regex /readme\.md$/i used by _validateArtifactsAndFinals. -/
def isReadmeKey (key : String) : Bool := endsWithStr (lowerStr key) "readme.md"

/-- Key test of the assembly check of _validateArtifactsAndFinals:
/result\.(html|md|csv)$/i or /final/i or /readme\.md$/i. -/
def isAssemblyKey (key : String) : Bool :=
  let k := lowerStr key
  endsWithStr k "result.html" || endsWithStr k "result.md" ||
  endsWithStr k "result.csv" || containsSub k "final" || endsWithStr k "readme.md"

/-- Warning text of the missing-artifact check. -/
def noNewArtifactsMsg (stepNum : Nat) : String :=
  "Step " ++ toString stepNum ++
  ": No new artifacts created; each step must produce at least one artifact."

/-- Warning text of the final-assembly check. -/
def finalAssemblyMissingMsg (stepNum : Nat) : String :=
  "Step " ++ toString stepNum ++
  ": Final assembly missing. Perform RAG over all prior artifacts (ignore process notes), extract goal-relevant content, append human-readable paragraphs per step into README.md, and emit README.md/result.*."

/-- Warning text of the final-summary check. -/
def finalSummaryMissingMsg (stepNum : Nat) : String :=
  "Step " ++ toString stepNum ++
  ": Final summary missing. Summarize README.md into finalResultSummary and finalResultMarkdown, and create a summary artifact (e.g., result_summary.md) for UI display."

/-- Helper _validateArtifactsAndFinals of be-workflowService.ts.  The source
takes a copy of newState.runLog into a local variable before the correction
branches; the pushes those branches make onto newState.runLog and the notes
they write onto newState.state.notes are therefore absent from the returned
record (which is built from the local copies), while their pushes onto
newState.state.artifacts and their writes to finalResultMarkdown and
finalResultSummary do persist.  The completed write in the final else branch
is likewise overridden by the local status captured at entry.  This function
reproduces exactly the fields of the returned record. -/
def validateArtifactsAndFinals (previousState newState : WorkflowState) : WorkflowState :=
  let totalSteps := newState.state.steps.length
  let stepNum := detectStepNumber newState
  let prevCount := previousState.state.artifacts.length
  let newCount := newState.state.artifacts.length
  let status0 := newState.status
  let notes0 := newState.state.notes
  let runLog0 := newState.runLog
  -- Block 1: missing-artifact warning on a non-final step.
  let b1 :=
    if stepNum > 0 && stepNum < totalSteps && newCount <= prevCount then
      let m := noNewArtifactsMsg stepNum
      (Status.running, appendNote notes0 m,
       runLog0 ++ [⟨previousState.currentIteration + 1, "QA", "QA: " ++ m⟩],
       newState.state.artifacts, newState.finalResultMarkdown, newState.finalResultSummary)
    else
      (status0, notes0, runLog0, newState.state.artifacts,
       newState.finalResultMarkdown, newState.finalResultSummary)
  let (s1, n1, l1, a1, m1, f1) := b1
  -- Block 2: final-assembly check on the second-to-last step.
  let b2 :=
    if totalSteps > 0 && stepNum == totalSteps - 1 then
      let hasREADME := a1.any (fun a => isReadmeKey a.key)
      let hasAssembly := a1.any (fun a => isAssemblyKey a.key)
      if !hasAssembly || !hasREADME then
        let readme := autoAssembleReadme newState.goal a1
        let m := finalAssemblyMissingMsg stepNum
        (Status.running, appendNote n1 m,
         l1 ++ [⟨previousState.currentIteration + 1, "QA", "QA: " ++ m⟩],
         a1 ++ [⟨"README.md", readme⟩], m1, f1)
      else (s1, n1, l1, a1, m1, f1)
    else (s1, n1, l1, a1, m1, f1)
  let (s2, n2, l2, a2, m2, f2) := b2
  -- Block 3: final-summary check on the last step.
  let b3 :=
    if totalSteps > 0 && stepNum == totalSteps then
      let hasSummary := jsTrim f2 != ""
      let hasMarkdown := jsTrim m2 != ""
      let hasSummaryArtifact := a2.any (fun a => containsSub (lowerStr a.key) "summary")
      if !(hasSummary && hasMarkdown && hasSummaryArtifact) then
        let m := finalSummaryMissingMsg stepNum
        match a2.find? (fun a => isReadmeKey a.key) with
        | some readme =>
          if readme.value != "" then
            let newMarkdown := if m2 != "" then m2 else readme.value
            let newSummary := if f2 != "" then f2 else strTake readme.value 1200
            (Status.running, appendNote n2 m,
             l2 ++ [⟨previousState.currentIteration + 1, "QA", "QA: " ++ m⟩],
             a2 ++ [⟨"result_summary.md", newSummary⟩], newMarkdown, newSummary)
          else
            (Status.running, appendNote n2 m,
             l2 ++ [⟨previousState.currentIteration + 1, "QA", "QA: " ++ m⟩],
             a2, m2, f2)
        | none =>
          (Status.running, appendNote n2 m,
           l2 ++ [⟨previousState.currentIteration + 1, "QA", "QA: " ++ m⟩],
           a2, m2, f2)
      else (s2, n2, l2, a2, m2, f2)
    else (s2, n2, l2, a2, m2, f2)
  let (s3, n3, l3, a3, m3, f3) := b3
  { newState with
      status := s3,
      runLog := l3,
      state := { newState.state with notes := n3, artifacts := a3 },
      finalResultMarkdown := m3,
      finalResultSummary := f3 }

/-- Worker of dedupFirst: keeps the first occurrence of each element, skipping
any element already seen. -/
def dedupFirstGo (seen : List String) : List String → List String
  | [] => []
  | x :: xs =>
    if seen.contains x then dedupFirstGo seen xs
    else x :: dedupFirstGo (x :: seen) xs

/-- Insertion-order deduplication, the effect of building a JS Set from a
list and iterating it. -/
def dedupFirst (l : List String) : List String := dedupFirstGo [] l

/-- Paragraph chunks of the RAG corpus: blank-line-delimited pieces whose
trimmed length exceeds 10. -/
def ragChunks (content : String) : List String :=
  (jsSplitBlank content).filter (fun p => (jsTrim p).length > 10)

/-- Distinct lower-cased query keywords of length above 2 (the JS Set built
by _executeRAG). -/
def ragQueryWords (query : String) : List String :=
  dedupFirst ((jsSplitWs (lowerStr query)).filter (fun w => w.length > 2))

/-- Score of one chunk: the number of distinct query keywords contained in
the set of lower-cased whitespace-split chunk words. -/
def ragScore (queryWords : List String) (chunk : String) : Nat :=
  let chunkWords := jsSplitWs (lowerStr chunk)
  (queryWords.filter (fun w => chunkWords.contains w)).length

/-- Header line of a successful _executeRAG result. -/
def ragHeader : String :=
  "Here are the most relevant snippets from the document:\n\n---\n\n"

/-- Separator between snippets in a successful _executeRAG result. -/
def ragSep : String := "\n\n---\n\n"

/-- Scored chunks of the corpus with positive score, in corpus order. -/
def ragScoredChunks (query content : String) : List (String × Nat) :=
  ((ragChunks content).map
    (fun chunk => (chunk, ragScore (ragQueryWords query) chunk))).filter
    (fun x => x.2 > 0)

/-- Comparator of the stable descending sort of _executeRAG (the JS sort with
comparator b.score - a.score). -/
def ragDescLe (a b : String × Nat) : Bool := decide (b.2 ≤ a.2)

/-- The same descending order as a relation; the JS Array.sort is stable, so
its result is the stable sort by this relation, here realised by the stable
List.insertionSort. -/
def ragDescRel (a b : String × Nat) : Prop := b.2 ≤ a.2

instance : DecidableRel ragDescRel := fun a b => Nat.decLe b.2 a.2

instance : IsTotal (String × Nat) ragDescRel :=
  ⟨fun a b => Nat.le_total b.2 a.2⟩

instance : IsTrans (String × Nat) ragDescRel :=
  ⟨fun _ _ _ h1 h2 => Nat.le_trans h2 h1⟩

/-- Helper _executeRAG of be-workflowService.ts. -/
def executeRAG (query content : String) : String :=
  if query == "" || content == "" then
    "No query or content provided for search."
  else
    let queryWords := ragQueryWords query
    if queryWords.length == 0 then
      "Query is too generic. Please provide more specific keywords."
    else
      let sortedChunks := (ragScoredChunks query content).insertionSort ragDescRel
      let topChunks := (sortedChunks.take 3).map (fun x => x.1)
      if topChunks.isEmpty then
        "No relevant information found in the document for your query."
      else
        ragHeader ++ joinStr ragSep topChunks

/-- Composition of the corrective passes that runWorkflowIteration applies to
a successful model state before returning it (its lines 734 to 738): artifact
and finals validation, run-log format enforcement, then the final-step rule. -/
def stepFinalityGuard (previousState s : WorkflowState) : WorkflowState :=
  let v := validateArtifactsAndFinals previousState s
  enforceFinalStepRules { v with runLog := enforceRunLogFormat v.runLog }

/-- Outcome of the internet-search endpoint call, abstracting the fetch to
/api/ai/test-search and the formatting of its network-supplied payload into
the final results text and result count that the source computes from it.
A thrown fetch or HTTP error is the fail case. -/
inductive SearchOutcome where
  | ok (finalResults : String) (totalResults : Nat)
  | fail (message : String)
  deriving DecidableEq, Repr

/-- Wrapping of a query in double quotes as the JS template literals do. -/
def quoteStr (q : String) : String := "\"" ++ q ++ "\""

/-- The combined search corpus of the rag_query branch: the formatted
remaining artifacts, with the user document appended when the supplied
knowledge text is truthy (JS ragContent ? ... : ...). -/
def ragCorpus (ragContent : Option String) (artifacts1 : List Artifact) : String :=
  let allArtifactsContent := joinStr "---\n\n"
    (artifacts1.map (fun a => "[" ++ a.key ++ "]\n" ++ a.value ++ "\n\n"))
  match ragContent with
  | some rc =>
    if rc != "" then allArtifactsContent ++ "\n\n[USER DOCUMENT]\n" ++ rc
    else allArtifactsContent
  | none => allArtifactsContent

/-- The rag_query branch of runWorkflowIteration (its lines 612 to 635),
applied to the model state after a successful provider call. -/
def applyRagTool (ragContent : Option String) (iterIndex : Int)
    (ns : WorkflowState) : WorkflowState :=
  match ns.state.artifacts.find? (fun a => a.key == "rag_query") with
  | none => ns
  | some ragQueryArtifact =>
    let artifacts1 := ns.state.artifacts.filter (fun a => a.key != "rag_query")
    let query := ragQueryArtifact.value
    let combinedContent := ragCorpus ragContent artifacts1
    if jsTrim combinedContent != "" then
      let ragResults := executeRAG query combinedContent
      { ns with
          state := { ns.state with
            artifacts := artifacts1 ++ [⟨"rag_results", ragResults⟩],
            notes := appendNote ns.state.notes
              ("Search completed for " ++ quoteStr query ++ ". Results in 'rag_results'.") },
          runLog := ns.runLog ++
            [⟨iterIndex, "Worker", "RAG search for " ++ quoteStr query ++ " added rag_results"⟩] }
    else
      { ns with
          state := { ns.state with
            artifacts := artifacts1,
            notes := appendNote ns.state.notes "No artifacts or documents available to search." },
          runLog := ns.runLog ++
            [⟨iterIndex, "Worker", "RAG search for " ++ quoteStr query ++ " skipped - no content"⟩] }

/-- The internet_query branch of runWorkflowIteration (its lines 637 to 732),
with the network call and payload formatting supplied as the searchWeb
oracle. -/
def applyInternetTool (searchWeb : String → SearchOutcome) (iterIndex : Int)
    (ns : WorkflowState) : WorkflowState :=
  match ns.state.artifacts.find? (fun a => a.key == "internet_query") with
  | none => ns
  | some internetQueryArtifact =>
    let artifacts1 := ns.state.artifacts.filter (fun a => a.key != "internet_query")
    let query := internetQueryArtifact.value
    match searchWeb query with
    | .ok finalResults totalResults =>
      { ns with
          state := { ns.state with
            artifacts := artifacts1 ++ [⟨"internet_results", finalResults⟩],
            notes := appendNote ns.state.notes
              ("Internet search completed for " ++ quoteStr query ++ ". Found " ++
                toString totalResults ++ " results; QA validate relevance.") },
          runLog := ns.runLog ++
            [⟨iterIndex, "Worker", "Internet search for " ++ quoteStr query ++
              " returned " ++ toString totalResults ++ " results"⟩] }
    | .fail errorMsg =>
      { ns with
          state := { ns.state with
            artifacts := artifacts1 ++
              [⟨"internet_results", "Internet search failed: " ++ errorMsg ++
                ". Please try a different query or broaden your search criteria."⟩],
            notes := appendNote ns.state.notes
              ("Internet search failed for " ++ quoteStr query ++ ": " ++ errorMsg ++
                ". QA: Consider recreating with broader search criteria.") },
          runLog := ns.runLog ++
            [⟨iterIndex, "Worker", "Internet search failed for " ++ quoteStr query ++
              ": " ++ errorMsg⟩] }

/-- Exported runWorkflowIteration of be-workflowService.ts.  The call oracle
stands for one invocation of the configured provider chain
(_runOllamaWorkflow, including its internal fetch retries and the parse and
normalization of the reply), indexed by the outer attempt number; an
Except.error is a throw.  The second component of the result is the number of
provider-call attempts the function consumed. -/
def runWorkflowIteration (call : Nat → Except String WorkflowState)
    (searchWeb : String → SearchOutcome) (ragContent : Option String)
    (currentState : WorkflowState) : WorkflowState × Nat :=
  let outcome :=
    match call 0 with
    | .ok s => (Except.ok s, 1)
    | .error _ =>
      match call 1 with
      | .ok s => (Except.ok s, 2)
      | .error e2 => (Except.error e2, 2)
  match outcome with
  | (.error lastError, attempts) =>
    let failureMessage := "Workflow error: " ++ lastError
    let failureLog : RunLogEntry :=
      ⟨currentState.currentIteration + 1, "QA", failureMessage⟩
    ({ currentState with
        status := .error,
        runLog := enforceRunLogFormat (currentState.runLog ++ [failureLog]),
        state := { currentState.state with
          notes := appendNote currentState.state.notes failureMessage } }, attempts)
  | (.ok newState, attempts) =>
    let iterIndex := currentState.currentIteration + 1
    let ns1 := applyRagTool ragContent iterIndex newState
    let ns2 := applyInternetTool searchWeb iterIndex ns1
    (stepFinalityGuard currentState ns2, attempts)

/-- Values of a parsed JSON document, the input shape of
_normalizeWorkflowState.  Integral JS numbers carry their value; the real
constructor stands for a non-integral number, whose exact value the
normalizer never uses (it only asks Number.isInteger). -/
inductive JVal where
  | null
  | bool (b : Bool)
  | str (s : String)
  | int (n : Int)
  | real
  | arr (elems : List JVal)
  | obj (fields : List (String × JVal))

/-- JS optional-chaining property access raw?.k: undefined (none) on
anything that is not an object with the field. -/
def jField : JVal → String → Option JVal
  | .obj fs, k => (fs.find? (fun p => p.1 == k)).map (fun p => p.2)
  | _, _ => none

/-- Two-level optional-chaining access raw?.a?.b. -/
def jField2 (v : JVal) (a b : String) : Option JVal :=
  match jField v a with
  | some w => jField w b
  | none => none

/-- JS truthiness of a parsed JSON value (the real constructor is treated as
truthy; the normalizer only applies this under an and with field checks that
fail for numbers anyway). -/
def jTruthy : JVal → Bool
  | .null => false
  | .bool b => b
  | .str s => s != ""
  | .int n => n != 0
  | .real => true
  | .arr _ => true
  | .obj _ => true

/-- The allowedStatuses list of _normalizeWorkflowState. -/
def allowedStatusStrings : List String :=
  ["running", "completed", "needs_clarification", "error"]

/-- Decoding of an allowed status string into the status union. -/
def statusOfString : String → Status
  | "completed" => .completed
  | "needs_clarification" => .needs_clarification
  | "error" => .error
  | _ => .running

/-- The filter predicate applied to raw runLog elements: the element is
truthy, with an integral iteration, a string agent and a string summary. -/
def validRunLogElem (e : JVal) : Bool :=
  jTruthy e &&
  (match jField e "iteration" with | some (.int _) => true | _ => false) &&
  (match jField e "agent" with | some (.str _) => true | _ => false) &&
  (match jField e "summary" with | some (.str _) => true | _ => false)

/-- Projection of a valid raw runLog element to its three used fields. -/
def runLogElemEntry (e : JVal) : RunLogEntry :=
  { iteration :=
      match jField e "iteration" with | some (.int n) => n | _ => 0,
    agent :=
      match jField e "agent" with | some (.str s) => s | _ => "",
    summary :=
      match jField e "summary" with | some (.str s) => s | _ => "" }

/-- Record produced by _normalizeWorkflowState.  The element lists of steps,
initialPlan and artifacts are kept as raw JSON values because the source
passes array elements through without validating them. -/
structure NormState where
  goal : String
  maxIterations : Int
  currentIteration : Int
  status : Status
  runLog : List RunLogEntry
  stateGoal : String
  steps : List JVal
  initialPlan : List JVal
  artifacts : List JVal
  notes : String
  progress : String
  finalResultMarkdown : String
  finalResultSummary : String
  resultType : Option ResultType

/-- Helper _normalizeWorkflowState of be-workflowService.ts, total on any
parsed JSON value (the source only uses optional chaining and typeof tests,
so it cannot throw). -/
def normalizeWorkflowState (raw : JVal) (fallbackGoal : String) : NormState :=
  { goal := match jField raw "goal" with | some (.str s) => s | _ => fallbackGoal,
    maxIterations := match jField raw "maxIterations" with | some (.int n) => n | _ => 10,
    currentIteration := match jField raw "currentIteration" with | some (.int n) => n | _ => 0,
    status :=
      match jField raw "status" with
      | some (.str s) => if allowedStatusStrings.contains s then statusOfString s else .running
      | _ => .running,
    runLog :=
      match jField raw "runLog" with
      | some (.arr es) => enforceRunLogFormat ((es.filter validRunLogElem).map runLogElemEntry)
      | _ => enforceRunLogFormat [],
    stateGoal := match jField2 raw "state" "goal" with | some (.str s) => s | _ => fallbackGoal,
    steps := match jField2 raw "state" "steps" with | some (.arr xs) => xs | _ => [],
    initialPlan := match jField2 raw "state" "initialPlan" with | some (.arr xs) => xs | _ => [],
    artifacts := match jField2 raw "state" "artifacts" with | some (.arr xs) => xs | _ => [],
    notes := match jField2 raw "state" "notes" with | some (.str s) => s | _ => "",
    progress := match jField2 raw "state" "progress" with | some (.str s) => s | _ => "",
    finalResultMarkdown := match jField raw "finalResultMarkdown" with | some (.str s) => s | _ => "",
    finalResultSummary := match jField raw "finalResultSummary" with | some (.str s) => s | _ => "",
    resultType :=
      match jField raw "resultType" with
      | some (.str "code") => some .code
      | some (.str "text") => some .text
      | some (.str "table") => some .table
      | _ => none }

/-- Derived step number of the loop controller (its deriveStepNum): the
/step (\d+)/i match of progress, else a fallback clamped to at least 1 when
steps exist (Math.max(1, fallbackStep || 1) equals max 1 fallbackStep), else
0 while planning. -/
def deriveStepNum (state : WorkflowState) (fallbackStep : Nat) : Nat :=
  match findStepSingle state.state.progress with
  | some n => n
  | none => if state.state.steps.length > 0 then max 1 fallbackStep else 0

/-- Observable step number of a committed state: the /step (\d+)/i parse of
its progress, or 0 when there is no match. -/
def obsStep (s : WorkflowState) : Nat := (findStepSingle s.state.progress).getD 0

/-- Result of the pre-iteration section of the loop body (derivation of the
step number, progress backfill, the backward-execution hard stop, high-water
update and the step 1/2 retry cap). -/
inductive PreOut where
  | halt (pushed : WorkflowState)
  | go (cur : WorkflowState) (highest : Nat) (stepIters : Nat → Nat)

/-- Lines 379 to 421 of the loop controller, executed before the provider
call of an iteration. -/
def preprocessIteration (i : Int) (cur0 : WorkflowState) (highest0 : Nat)
    (stepIters0 : Nat → Nat) : PreOut :=
  let stepNum := deriveStepNum cur0 highest0
  let cur1 :=
    if stepNum > 0 && !(findStepSingle cur0.state.progress).isSome then
      { cur0 with state := { cur0.state with
          progress := "Working on step " ++ toString stepNum ++ "..." } }
    else cur0
  if stepNum > 0 && stepNum < highest0 then
    .halt { cur1 with
      status := .error,
      state := { cur1.state with
        progress := "Error: Invalid step progression detected",
        notes := "Blocked invalid backward execution to step " ++ toString stepNum ++
          ". Contact administrator." } }
  else
    let highest1 := if stepNum > highest0 then stepNum else highest0
    if stepNum > 0 then
      let stepIters1 := fun n => if n == stepNum then stepIters0 stepNum + 1 else stepIters0 n
      if (stepNum == 1 || stepNum == 2) && stepIters1 stepNum > 4 then
        let nextStep := stepNum + 1
        if nextStep ≤ cur1.state.steps.length then
          .go { cur1 with
              state := { cur1.state with
                progress := "Working on step " ++ toString nextStep ++ "...",
                notes := "Step " ++ toString stepNum ++
                  " exceeded 4 iterations. Moving to step " ++ toString nextStep ++ "." },
              runLog := cur1.runLog ++
                [⟨i, "QA", "Auto-advanced from step " ++ toString stepNum ++
                  " to step " ++ toString nextStep⟩] }
            (max highest1 nextStep) stepIters1
        else .go cur1 highest1 stepIters1
      else .go cur1 highest1 stepIters1
    else .go cur1 highest1 stepIters0

/-- Line 425 of the loop controller: the run-log merge (the Boolean filter of
mergeRunLogs drops nothing in this typed model). -/
def mergeRunLogsStage (cur ns0 : WorkflowState) : WorkflowState :=
  { ns0 with runLog := cur.runLog ++ ns0.runLog }

/-- Lines 427 to 441 of the loop controller: the guaranteed per-iteration log
entry with its inferred agent. -/
def ensureIterationLogEntry (i : Int) (cur ns1 : WorkflowState) : WorkflowState :=
  if ns1.runLog.any (fun e => e.iteration == i) then ns1
  else
    let progressText :=
      if ns1.state.progress != "" then ns1.state.progress
      else if cur.state.progress != "" then cur.state.progress
      else "Progress update"
    let inferredAgent :=
      if containsSub (lowerStr progressText) "plan" then "Planner"
      else if containsSub (lowerStr progressText) "qa" ||
        containsSub (lowerStr progressText) "review" then "QA"
      else "Worker"
    { ns1 with runLog := ns1.runLog ++ [⟨i, inferredAgent, progressText⟩] }

/-- Lines 443 to 448 of the loop controller: the forced start at step 1 after
planning. -/
def forceStepOne (i : Int) (ns2 : WorkflowState) : WorkflowState :=
  if ns2.state.steps.length > 0 && !(hasStepWs ns2.state.progress) then
    { ns2 with
        state := { ns2.state with progress := "Working on step 1..." },
        runLog := ns2.runLog ++
          [⟨i, "Planner", "Initialized execution at step 1 after planning."⟩] }
  else ns2

/-- Lines 425 to 448 of the loop controller: run-log merge, the guaranteed
per-iteration log entry, and the forced start at step 1 after planning. -/
def mergeAndPrepare (i : Int) (cur ns0 : WorkflowState) : WorkflowState :=
  forceStepOne i (ensureIterationLogEntry i cur (mergeRunLogsStage cur ns0))

/-- Lines 450 to 461 of the loop controller: artifacts added by a non-QA turn
are withheld in the pending buffer and the previous artifact list is kept;
a QA turn commits previous, pending and added artifacts together. -/
def commitArtifacts (prevArtifacts pending : List Artifact)
    (ns : WorkflowState) : WorkflowState × List Artifact :=
  let addedArtifacts := ns.state.artifacts.filter
    (fun a => !(prevArtifacts.any (fun p => p.key == a.key && p.value == a.value)))
  let lastAgent := (ns.runLog.getLast?).map (fun e => e.agent)
  if lastAgent != some "QA" then
    ({ ns with state := { ns.state with artifacts := prevArtifacts } },
     pending ++ addedArtifacts)
  else
    ({ ns with state := { ns.state with
        artifacts := prevArtifacts ++ pending ++ addedArtifacts } }, [])

/-- Text of the Plan.md artifact the loop controller injects. -/
def planContent (steps : List String) : String :=
  "# Project Plan\n\n" ++
  joinStr "\n" (steps.enum.map (fun p =>
    toString (p.1 + 1) ++ ". Step " ++ toString (p.1 + 1) ++ " - " ++ p.2)) ++
  "\n\n## Details\nThis plan outlines the systematic approach to achieve the project goals through " ++
  toString steps.length ++ " carefully sequenced steps."

/-- Text of the Requirements.md artifact the loop controller injects. -/
def requirementsContent (goal : String) (steps : List String) : String :=
  "# Requirements Specification\n\n## Project Goal\n" ++ goal ++
  "\n\n## Implementation Steps\n1. " ++ joinStr "\n1. " steps ++
  "\n\n## Assumptions\n- Requirements are derived from the stated goal\n- Implementation follows the planned sequence\n- Each step builds upon previous work\n\n## Success Criteria\n- All planned steps completed\n- Final deliverables meet quality standards\n- Workflow executes without backward step regression"

/-- Lines 463 to 479 of the loop controller: the post-iteration backward-step
correction and the high-water update.  Returns the possibly corrected state
and the new high-water mark. -/
def stepBackwardCorrection (i : Int) (highest : Nat) (ns0 : WorkflowState) :
    WorkflowState × Nat :=
  let newStepNum := deriveStepNum ns0 highest
  if newStepNum > 0 && newStepNum < highest then
    ({ ns0 with
        state := { ns0.state with
          progress := "Working on step " ++ toString (highest + 1) ++ "...",
          notes := ns0.state.notes ++ " (Corrected invalid step progression)" },
        runLog := ns0.runLog ++
          [⟨i, "QA", "Corrected backward move to step " ++ toString newStepNum ++
            "; advanced to " ++ toString (highest + 1)⟩] }, highest + 1)
  else if newStepNum > highest then (ns0, newStepNum)
  else (ns0, highest)

/-- Lines 481 to 485 of the loop controller: copy steps into an empty
initialPlan once steps exist. -/
def fillInitialPlan (ns1 : WorkflowState) : WorkflowState :=
  if ns1.state.steps.length > 0 && ns1.state.initialPlan.length == 0 then
    { ns1 with state := { ns1.state with initialPlan := ns1.state.steps } }
  else ns1

/-- Lines 487 to 497 of the loop controller: inject a Plan.md artifact when
none exists and there are at least 2 steps. -/
def injectPlanArtifact (ns2 : WorkflowState) : WorkflowState :=
  if !(ns2.state.artifacts.any (fun a => a.key == "Plan.md")) &&
      ns2.state.steps.length ≥ 2 then
    { ns2 with state := { ns2.state with
        artifacts := ns2.state.artifacts ++ [⟨"Plan.md", planContent ns2.state.steps⟩] } }
  else ns2

/-- Lines 499 to 508 of the loop controller: inject a Requirements.md
artifact when none exists and steps exist. -/
def injectRequirementsArtifact (ns3 : WorkflowState) : WorkflowState :=
  if !(ns3.state.artifacts.any (fun a => a.key == "Requirements.md")) &&
      ns3.state.steps.length > 0 then
    { ns3 with state := { ns3.state with
        artifacts := ns3.state.artifacts ++
          [⟨"Requirements.md", requirementsContent ns3.goal ns3.state.steps⟩] } }
  else ns3

/-- Lines 463 to 510 of the loop controller: the post-iteration backward-step
correction, the high-water update, the copy of steps into an empty
initialPlan, the Plan.md and Requirements.md injections, and the commit of
the iteration counter.  Returns the committed state and the new high-water
mark. -/
def applyStepGuards (i : Int) (highest : Nat) (ns0 : WorkflowState) :
    WorkflowState × Nat :=
  let corr := stepBackwardCorrection i highest ns0
  let ns4 := injectRequirementsArtifact (injectPlanArtifact (fillInitialPlan corr.1))
  ({ ns4 with currentIteration := i }, corr.2)

/-- Processing of one successful provider result by the loop body: merge and
preparation, deferred artifact commit, then the post-iteration guards.
Returns the committed state, the new high-water mark and the new pending
buffer. -/
def commitIterationResult (i : Int) (cur : WorkflowState) (highest : Nat)
    (pending : List Artifact) (ns : WorkflowState) :
    WorkflowState × Nat × List Artifact :=
  let ns1 := mergeAndPrepare i cur ns
  let (ns2, pending1) := commitArtifacts cur.state.artifacts pending ns1
  let (committed, highest1) := applyStepGuards i highest ns2
  (committed, highest1, pending1)

/-- Decision taken after a state is committed: halt the loop (with any
further states published on the way out) or continue with the carried
counters. -/
inductive PostOut where
  | halt (extra : List WorkflowState)
  | go (cur : WorkflowState) (qaIterations completionAttempts highest : Nat)

/-- The summary content the QA forced completion derives (lines 521 to 525 of
the loop controller). -/
def qaSummaryContent (committed : WorkflowState) : String :=
  if jsTrim committed.finalResultSummary != "" then jsTrim committed.finalResultSummary
  else if committed.finalResultMarkdown != "" then strTake committed.finalResultMarkdown 400
  else if committed.state.notes != "" then committed.state.notes
  else "Workflow completed."

/-- The state the QA forced completion publishes (lines 526 to 532 of the
loop controller): completed status, derived summary, and the final QA log
entry. -/
def qaForcedFinal (committed : WorkflowState) : WorkflowState :=
  let c1 := { committed with
    status := .completed, finalResultSummary := qaSummaryContent committed }
  { c1 with runLog := c1.runLog ++
    [⟨c1.currentIteration, "QA",
      "Final QA loop completed; workflow marked completed with summary."⟩] }

/-- The step the QA non-final advancement targets (lines 536 to 539 of the
loop controller). -/
def qaNextStep (committed : WorkflowState) (currentStep : Nat) : Nat :=
  if currentStep > 0 then
    min (currentStep + 1)
      (if committed.state.steps.length == 0 then currentStep + 1
       else committed.state.steps.length)
  else 0

/-- The advanced state of the QA non-final advancement (lines 540 to 548 of
the loop controller). -/
def qaAdvanceState (committed : WorkflowState) (nextStep : Nat) : WorkflowState :=
  { committed with
      state := { committed.state with
        progress := "Working on step " ++ toString nextStep ++ "...",
        notes := committed.state.notes ++ " Auto-advanced after QA loop limit." },
      runLog := committed.runLog ++
        [⟨committed.currentIteration, "QA",
          "Auto-advanced to step " ++ toString nextStep ++ " after QA review limit"⟩] }

/-- Lines 513 to 565 of the loop controller: the error break, the QA
book-keeping with forced completion on the final step and forced advancement
on non-final steps, and the completion-attempt and clarification breaks. -/
def postCommitControl (committed : WorkflowState) (highest qaIter0 attempts0 : Nat) :
    PostOut :=
  if committed.status == .error then .halt []
  else
    let lastAgent := (committed.runLog.getLast?).map (fun e => e.agent)
    let qaIter1 := if lastAgent == some "QA" then qaIter0 + 1 else qaIter0
    let currentStep := deriveStepNum committed highest
    let isFinalStep := committed.state.steps.length > 0 &&
      currentStep ≥ committed.state.steps.length
    if lastAgent == some "QA" && isFinalStep && qaIter1 ≥ 1 &&
        committed.status == .running then
      .halt [qaForcedFinal committed]
    else
      let adv :=
        if lastAgent == some "QA" && !isFinalStep && qaIter1 ≥ 1 &&
            committed.status == .running then
          if qaNextStep committed currentStep > currentStep then
            (qaAdvanceState committed (qaNextStep committed currentStep),
             max highest (qaNextStep committed currentStep), 0)
          else (committed, highest, 0)
        else (committed, highest, qaIter1)
      let cur2 := adv.1
      let highest2 := adv.2.1
      let qaIter2 := adv.2.2
      if cur2.status == .completed then
        if attempts0 + 1 ≥ 2 then .halt []
        else .go cur2 qaIter2 (attempts0 + 1) highest2
      else if cur2.status == .needs_clarification then .halt []
      else .go cur2 qaIter2 attempts0 highest2

/-- Mutable locals of runWorkflowLoop, threaded across iterations. -/
structure LoopSt where
  cur : WorkflowState
  completionAttempts : Nat
  qaIterations : Nat
  stepIters : Nat → Nat
  highest : Nat
  pending : List Artifact

/-- Result of one loop-body execution: the states published with
setWorkflowState during it, and either the follow-on locals or a halt. -/
inductive StepOut where
  | stop (pushed : List WorkflowState)
  | next (st : LoopSt) (pushed : List WorkflowState)

/-- One iteration of the for loop of runWorkflowLoop.  The iter oracle stands
for the awaited runWorkflowIteration call; an Except.error is a thrown
exception, handled by the surrounding catch, which publishes the current
state marked error. -/
def loopBody (iter : Int → WorkflowState → Except String WorkflowState)
    (i : Int) (st : LoopSt) : StepOut :=
  match preprocessIteration i st.cur st.highest st.stepIters with
  | .halt pushed => .stop [pushed]
  | .go cur1 highest1 stepIters1 =>
    match iter i cur1 with
    | .error _ => .stop [{ cur1 with status := .error }]
    | .ok ns =>
      let r := commitIterationResult i cur1 highest1 st.pending ns
      match postCommitControl r.1 r.2.1 st.qaIterations st.completionAttempts with
      | .halt extra => .stop (r.1 :: extra)
      | .go cur2 qa2 attempts2 highest3 =>
        .next ⟨cur2, attempts2, qa2, stepIters1, highest3, r.2.2⟩ [r.1]

/-- Outcome of running the loop with a given amount of modelling fuel: the
published state sequence and the number of loop-body executions, marked
fuelOut when the fuel ran out while the source loop would have continued. -/
inductive LoopOut where
  | finished (trace : List WorkflowState) (iters : Nat)
  | fuelOut (trace : List WorkflowState) (iters : Nat)
  deriving DecidableEq, Repr

/-- Driver of the for loop: the condition i less-or-equal maxIterations is
re-read from the current state each iteration, exactly as the source does. -/
def loopGo (iter : Int → WorkflowState → Except String WorkflowState) :
    Nat → Int → LoopSt → LoopOut
  | 0, i, st => if i > st.cur.maxIterations then .finished [] 0 else .fuelOut [] 0
  | fuel + 1, i, st =>
    if i > st.cur.maxIterations then .finished [] 0
    else
      match loopBody iter i st with
      | .stop pushed => .finished pushed 1
      | .next st1 pushed =>
        match loopGo iter fuel (i + 1) st1 with
        | .finished tr n => .finished (pushed ++ tr) (n + 1)
        | .fuelOut tr n => .fuelOut (pushed ++ tr) (n + 1)

/-- Initial locals of runWorkflowLoop. -/
def initialLoopSt (initialState : WorkflowState) : LoopSt :=
  ⟨initialState, 0, 0, fun _ => 0, 0, []⟩

/-- The runWorkflowLoop driver of the App component, over the iter oracle. -/
def runWorkflowLoop (iter : Int → WorkflowState → Except String WorkflowState)
    (initialState : WorkflowState) (startIteration : Int) (fuel : Nat) : LoopOut :=
  loopGo iter fuel startIteration (initialLoopSt initialState)

/-- Published state sequence of a loop outcome. -/
def traceOf : LoopOut → List WorkflowState
  | .finished tr _ => tr
  | .fuelOut tr _ => tr

/-- Number of loop-body executions of a loop outcome. -/
def itersOf : LoopOut → Nat
  | .finished _ n => n
  | .fuelOut _ n => n

/-- Whether the loop ran to a real exit rather than out of modelling fuel. -/
def finishedOf : LoopOut → Bool
  | .finished _ _ => true
  | .fuelOut _ _ => false

/-- Count of published states whose status is completed. -/
def countCompleted (trace : List WorkflowState) : Nat :=
  (trace.filter (fun s => s.status == .completed)).length

/-- Chain predicate of the monotonicity claim: along the list, every state
with a positive observable step number has one at least as large as its
predecessor bound. -/
def ChainGE : Nat → List WorkflowState → Prop
  | _, [] => True
  | prev, t :: ts => (0 < obsStep t → prev ≤ obsStep t) ∧ ChainGE (obsStep t) ts

section ParseLemmas

theorem toDigitsCore_append (b : Nat) :
    ∀ fuel n ds, Nat.toDigitsCore b fuel n ds = Nat.toDigitsCore b fuel n [] ++ ds := by
  intro fuel
  induction fuel with
  | zero => intro n ds; simp [Nat.toDigitsCore]
  | succ f ih =>
    intro n ds
    simp only [Nat.toDigitsCore]
    by_cases h : n / b = 0
    · simp [h]
    · simp only [if_neg h]
      rw [ih (n / b) ((n % b).digitChar :: ds), ih (n / b) [(n % b).digitChar]]
      simp

theorem digitChar_isDigit {m : Nat} (h : m < 10) : (Nat.digitChar m).isDigit = true := by
  interval_cases m <;> decide

theorem digitChar_toNat {m : Nat} (h : m < 10) : (Nat.digitChar m).toNat - 48 = m := by
  interval_cases m <;> decide

theorem toDigitsCore_all_digits :
    ∀ fuel n, ∀ c ∈ Nat.toDigitsCore 10 fuel n [], c.isDigit = true := by
  intro fuel
  induction fuel with
  | zero => intro n c hc; simp [Nat.toDigitsCore] at hc
  | succ f ih =>
    intro n c hc
    simp only [Nat.toDigitsCore] at hc
    by_cases h : n / 10 = 0
    · simp [h] at hc
      subst hc
      exact digitChar_isDigit (Nat.mod_lt _ (by norm_num))
    · rw [if_neg h, toDigitsCore_append] at hc
      rcases List.mem_append.1 hc with h1 | h2
      · exact ih _ c h1
      · simp at h2
        subst h2
        exact digitChar_isDigit (Nat.mod_lt _ (by norm_num))

theorem parseDigits_toDigitsCore :
    ∀ fuel n, n < fuel → parseDigits (Nat.toDigitsCore 10 fuel n []) = n := by
  intro fuel
  induction fuel with
  | zero => intro n h; omega
  | succ f ih =>
    intro n h
    simp only [Nat.toDigitsCore]
    by_cases hd : n / 10 = 0
    · simp only [if_pos hd, parseDigits, List.foldl]
      have h10 : n < 10 := by omega
      rw [digitChar_toNat (Nat.mod_lt _ (by norm_num))]
      omega
    · rw [if_neg hd, toDigitsCore_append]
      have hlt : n / 10 < f := by omega
      have := ih (n / 10) hlt
      simp only [parseDigits] at this ⊢
      rw [List.foldl_append, this]
      simp only [List.foldl]
      rw [digitChar_toNat (Nat.mod_lt _ (by norm_num))]
      omega

theorem toDigitsCore_ne_nil :
    ∀ fuel n, n < fuel → Nat.toDigitsCore 10 fuel n [] ≠ [] := by
  intro fuel
  induction fuel with
  | zero => intro n h; omega
  | succ f _ =>
    intro n _
    simp only [Nat.toDigitsCore]
    by_cases hd : n / 10 = 0
    · simp [hd]
    · rw [if_neg hd, toDigitsCore_append]
      simp

theorem repr_data_eq (n : Nat) :
    (Nat.repr n).data = Nat.toDigitsCore 10 (n + 1) n [] := rfl

theorem repr_all_digits (n : Nat) : ∀ c ∈ (Nat.repr n).data, c.isDigit = true := by
  rw [repr_data_eq]
  exact toDigitsCore_all_digits (n + 1) n

theorem parseDigits_repr (n : Nat) : parseDigits (Nat.repr n).data = n := by
  rw [repr_data_eq]
  exact parseDigits_toDigitsCore (n + 1) n (Nat.lt_succ_self n)

theorem repr_data_ne_nil (n : Nat) : (Nat.repr n).data ≠ [] := by
  rw [repr_data_eq]
  exact toDigitsCore_ne_nil (n + 1) n (Nat.lt_succ_self n)

theorem takeWhile_append_all {p : Char → Bool} {l1 l2 : List Char}
    (h : ∀ c ∈ l1, p c = true) :
    (l1 ++ l2).takeWhile p = l1 ++ l2.takeWhile p := by
  induction l1 with
  | nil => simp
  | cons c cs ih =>
    simp only [List.cons_append, List.takeWhile_cons, h c (by simp)]
    rw [ih (fun d hd => h d (by simp [hd]))]
    simp

theorem stepAtSingle_not_s {c : Char} (cs : List Char) (h : c.toLower ≠ 's') :
    stepAtSingle (c :: cs) = none := by
  rcases cs with _ | ⟨c2, _ | ⟨c3, _ | ⟨c4, _ | ⟨c5, rest⟩⟩⟩⟩ <;>
    simp [stepAtSingle, lowerEq, h]

theorem findStepSingleAux_cons_not_s {c : Char} (cs : List Char) (h : c.toLower ≠ 's') :
    findStepSingleAux (c :: cs) = findStepSingleAux cs := by
  simp [findStepSingleAux, stepAtSingle_not_s cs h]

theorem findStepSingleAux_step_digits (ds tail : List Char) (hne : ds ≠ [])
    (hdig : ∀ c ∈ ds, c.isDigit = true)
    (htail : tail.takeWhile Char.isDigit = []) :
    findStepSingleAux ('s' :: 't' :: 'e' :: 'p' :: ' ' :: (ds ++ tail)) =
      some (parseDigits ds) := by
  have hstep : stepAtSingle ('s' :: 't' :: 'e' :: 'p' :: ' ' :: (ds ++ tail)) =
      some (parseDigits ds) := by
    simp only [stepAtSingle, lowerEq]
    rw [takeWhile_append_all hdig, htail]
    simp [hne]
  simp [findStepSingleAux, hstep]

theorem findStepSingle_workingOn (n : Nat) :
    findStepSingle ("Working on step " ++ toString n ++ "...") = some n := by
  have hdata : ("Working on step " ++ toString n ++ "...").data =
      'W' :: 'o' :: 'r' :: 'k' :: 'i' :: 'n' :: 'g' :: ' ' :: 'o' :: 'n' :: ' ' ::
        's' :: 't' :: 'e' :: 'p' :: ' ' :: ((Nat.repr n).data ++ ['.', '.', '.']) := by
    show ("Working on step " ++ Nat.repr n ++ "...").data = _
    rw [String.data_append, String.data_append]
    rfl
  show findStepSingleAux _ = some n
  rw [hdata]
  rw [findStepSingleAux_cons_not_s _ (by decide), findStepSingleAux_cons_not_s _ (by decide),
    findStepSingleAux_cons_not_s _ (by decide), findStepSingleAux_cons_not_s _ (by decide),
    findStepSingleAux_cons_not_s _ (by decide), findStepSingleAux_cons_not_s _ (by decide),
    findStepSingleAux_cons_not_s _ (by decide), findStepSingleAux_cons_not_s _ (by decide),
    findStepSingleAux_cons_not_s _ (by decide), findStepSingleAux_cons_not_s _ (by decide),
    findStepSingleAux_cons_not_s _ (by decide)]
  rw [findStepSingleAux_step_digits _ _ (repr_data_ne_nil n) (repr_all_digits n) (by decide)]
  rw [parseDigits_repr]

theorem obsStep_workingOn (n : Nat) (s : WorkflowState)
    (h : s.state.progress = "Working on step " ++ toString n ++ "...") :
    obsStep s = n := by
  simp [obsStep, h, findStepSingle_workingOn]

end ParseLemmas

section UtilityLemmas

theorem containsChars_nil (l : List Char) : containsChars [] l = true := by
  cases l <;> simp [containsChars, List.isPrefixOf]

theorem containsChars_pre (pat : List Char) :
    ∀ pre rest : List Char, containsChars pat (pre ++ (pat ++ rest)) = true := by
  intro pre
  induction pre with
  | nil =>
    intro rest
    match pat with
    | [] => simp [containsChars_nil]
    | p :: ps =>
      simp only [List.nil_append, containsChars]
      have : (p :: ps).isPrefixOf ((p :: ps) ++ rest) = true := by
        rw [List.isPrefixOf_iff_prefix]
        exact List.prefix_append _ _
      simp [this]
  | cons c cs ih =>
    intro rest
    show (pat.isPrefixOf (c :: (cs ++ (pat ++ rest))) ||
      containsChars pat (cs ++ (pat ++ rest))) = true
    rw [ih rest]
    simp

theorem enforceRunLogEntry_not_pref (e : RunLogEntry)
    (h : startsWithStr (lowerStr (jsTrim e.summary)) (lowerStr (e.agent ++ ":")) = false) :
    enforceRunLogEntry e = { e with summary := e.agent ++ ":" ++ " " ++ jsTrim e.summary } := by
  simp only [enforceRunLogEntry]
  rw [if_neg (by simp [h])]

theorem containsChars_decomp (pat : List Char) {l : List Char} (pre rest : List Char)
    (h : l = pre ++ pat ++ rest) : containsChars pat l = true := by
  subst h
  rw [List.append_assoc]
  exact containsChars_pre pat pre rest

theorem containsSub_of_decomp {s pat : String} (pre post : String)
    (h : s = pre ++ pat ++ post) : containsSub s pat = true := by
  subst h
  show containsChars pat.data (pre ++ pat ++ post).data = true
  rw [String.data_append, String.data_append, List.append_assoc]
  exact containsChars_pre pat.data pre.data post.data

theorem dropWhile_append_stop {p : Char → Bool} (u v : List Char) :
    ∃ w, (u ++ v).dropWhile p = w ++ v ∨ (u ++ v).dropWhile p = v.dropWhile p := by
  induction u with
  | nil => exact ⟨[], Or.inr rfl⟩
  | cons c cs ih =>
    by_cases hc : p c = true
    · simpa [List.dropWhile_cons, hc] using ih
    · exact ⟨c :: cs, Or.inl (by simp [List.dropWhile_cons, hc])⟩

theorem jsTrim_head_keeps {a b : String}
    (ha : a.data ≠ []) (hhead : ∀ c ∈ a.data.take 1, jsSpace c = false)
    (hlast : jsSpace (a.data.getLast ha) = false) :
    ∃ t : List Char, (jsTrim (a ++ b)).data = a.data ++ t := by
  show ∃ t, (((a ++ b).data.dropWhile jsSpace).reverse.dropWhile jsSpace).reverse = a.data ++ t
  rw [String.data_append]
  obtain ⟨c, cs, hcs⟩ := List.exists_cons_of_ne_nil ha
  have hfront : (a.data ++ b.data).dropWhile jsSpace = a.data ++ b.data := by
    rw [hcs]
    have : jsSpace c = false := hhead c (by simp [hcs])
    simp [List.dropWhile_cons, this]
  rw [hfront, List.reverse_append]
  have hsplit : ∃ w, (b.data.reverse ++ a.data.reverse).dropWhile jsSpace =
      w ++ a.data.reverse ∨ (b.data.reverse ++ a.data.reverse).dropWhile jsSpace =
      a.data.reverse.dropWhile jsSpace := dropWhile_append_stop _ _
  have hrev : a.data.reverse.dropWhile jsSpace = a.data.reverse := by
    have : a.data.reverse = a.data.getLast ha :: (a.data.dropLast).reverse := by
      conv_lhs => rw [← List.dropLast_append_getLast ha]
      simp
    rw [this]
    simp [List.dropWhile_cons, hlast]
  obtain ⟨w, hw | hw⟩ := hsplit
  · exact ⟨w.reverse, by rw [hw]; simp⟩
  · exact ⟨[], by rw [hw, hrev]; simp⟩

end UtilityLemmas

section ClaimC6

/-- C6: the Step/Finality Guard (validation, run-log format enforcement and
the final-step rule, composed as runWorkflowIteration applies them) is
idempotent on every already-compliant state, that is on every state the
guard maps to itself: a second application changes nothing. -/
theorem c6_guard_idempotent_on_compliant (previousState s : WorkflowState)
    (h : stepFinalityGuard previousState s = s) :
    stepFinalityGuard previousState (stepFinalityGuard previousState s) =
      stepFinalityGuard previousState s := by
  rw [h]
  exact h

/-- A convenient compliant state: the fresh run state. -/
def emptyState : WorkflowState where
  goal := "g"
  maxIterations := 10
  currentIteration := 0
  status := .running
  runLog := []
  state := { goal := "g", steps := [], initialPlan := [], artifacts := [], notes := "", progress := "" }
  finalResultMarkdown := ""
  finalResultSummary := ""
  resultType := none

theorem c6_guard_idempotent_witness :
    stepFinalityGuard emptyState emptyState = emptyState ∧
    stepFinalityGuard emptyState (stepFinalityGuard emptyState emptyState) =
      stepFinalityGuard emptyState emptyState :=
  ⟨by rfl, c6_guard_idempotent_on_compliant emptyState emptyState (by rfl)⟩

end ClaimC6

section GuardLemmas

theorem stepBackwardCorrection_artifacts (i : Int) (highest : Nat) (ns0 : WorkflowState) :
    (stepBackwardCorrection i highest ns0).1.state.artifacts = ns0.state.artifacts := by
  simp only [stepBackwardCorrection]
  split_ifs <;> rfl

theorem stepBackwardCorrection_initialPlan (i : Int) (highest : Nat) (ns0 : WorkflowState) :
    (stepBackwardCorrection i highest ns0).1.state.initialPlan =
      ns0.state.initialPlan := by
  simp only [stepBackwardCorrection]
  split_ifs <;> rfl

theorem stepBackwardCorrection_steps (i : Int) (highest : Nat) (ns0 : WorkflowState) :
    (stepBackwardCorrection i highest ns0).1.state.steps = ns0.state.steps := by
  simp only [stepBackwardCorrection]
  split_ifs <;> rfl

theorem fillInitialPlan_artifacts (ns : WorkflowState) :
    (fillInitialPlan ns).state.artifacts = ns.state.artifacts := by
  simp only [fillInitialPlan]
  split_ifs <;> rfl

theorem fillInitialPlan_initialPlan (ns : WorkflowState) :
    (fillInitialPlan ns).state.initialPlan =
      (if ns.state.steps.length > 0 && ns.state.initialPlan.length == 0 then
        ns.state.steps else ns.state.initialPlan) := by
  simp only [fillInitialPlan]
  split_ifs <;> rfl

theorem injectPlanArtifact_initialPlan (ns : WorkflowState) :
    (injectPlanArtifact ns).state.initialPlan = ns.state.initialPlan := by
  simp only [injectPlanArtifact]
  split_ifs <;> rfl

theorem injectRequirementsArtifact_initialPlan (ns : WorkflowState) :
    (injectRequirementsArtifact ns).state.initialPlan = ns.state.initialPlan := by
  simp only [injectRequirementsArtifact]
  split_ifs <;> rfl

theorem injectPlanArtifact_artifacts (ns : WorkflowState) :
    ∃ inj, (injectPlanArtifact ns).state.artifacts = ns.state.artifacts ++ inj ∧
      ∀ a ∈ inj, a.key = "Plan.md" := by
  simp only [injectPlanArtifact]
  split_ifs with h
  · exact ⟨[⟨"Plan.md", planContent ns.state.steps⟩], rfl, by simp⟩
  · exact ⟨[], by simp, by simp⟩

theorem injectRequirementsArtifact_artifacts (ns : WorkflowState) :
    ∃ inj, (injectRequirementsArtifact ns).state.artifacts = ns.state.artifacts ++ inj ∧
      ∀ a ∈ inj, a.key = "Requirements.md" := by
  simp only [injectRequirementsArtifact]
  split_ifs with h
  · exact ⟨[⟨"Requirements.md", requirementsContent ns.goal ns.state.steps⟩], rfl, by simp⟩
  · exact ⟨[], by simp, by simp⟩

theorem stepBackwardCorrection_fields (i : Int) (h : Nat) (ns : WorkflowState) :
    (stepBackwardCorrection i h ns).1.status = ns.status ∧
    (stepBackwardCorrection i h ns).1.maxIterations = ns.maxIterations := by
  simp only [stepBackwardCorrection]
  split_ifs <;> exact ⟨rfl, rfl⟩

theorem fillInitialPlan_fields (ns : WorkflowState) :
    (fillInitialPlan ns).state.progress = ns.state.progress ∧
    (fillInitialPlan ns).state.notes = ns.state.notes ∧
    (fillInitialPlan ns).runLog = ns.runLog ∧
    (fillInitialPlan ns).status = ns.status ∧
    (fillInitialPlan ns).maxIterations = ns.maxIterations := by
  simp only [fillInitialPlan]
  split_ifs <;> exact ⟨rfl, rfl, rfl, rfl, rfl⟩

theorem injectPlanArtifact_fields (ns : WorkflowState) :
    (injectPlanArtifact ns).state.progress = ns.state.progress ∧
    (injectPlanArtifact ns).state.notes = ns.state.notes ∧
    (injectPlanArtifact ns).runLog = ns.runLog ∧
    (injectPlanArtifact ns).status = ns.status ∧
    (injectPlanArtifact ns).maxIterations = ns.maxIterations := by
  simp only [injectPlanArtifact]
  split_ifs <;> exact ⟨rfl, rfl, rfl, rfl, rfl⟩

theorem injectRequirementsArtifact_fields (ns : WorkflowState) :
    (injectRequirementsArtifact ns).state.progress = ns.state.progress ∧
    (injectRequirementsArtifact ns).state.notes = ns.state.notes ∧
    (injectRequirementsArtifact ns).runLog = ns.runLog ∧
    (injectRequirementsArtifact ns).status = ns.status ∧
    (injectRequirementsArtifact ns).maxIterations = ns.maxIterations := by
  simp only [injectRequirementsArtifact]
  split_ifs <;> exact ⟨rfl, rfl, rfl, rfl, rfl⟩

theorem applyStepGuards_fst_progress (i : Int) (h : Nat) (ns : WorkflowState) :
    (applyStepGuards i h ns).1.state.progress =
      (stepBackwardCorrection i h ns).1.state.progress := by
  show (injectRequirementsArtifact (injectPlanArtifact
      (fillInitialPlan (stepBackwardCorrection i h ns).1))).state.progress = _
  rw [(injectRequirementsArtifact_fields _).1, (injectPlanArtifact_fields _).1,
    (fillInitialPlan_fields _).1]

theorem applyStepGuards_fst_notes (i : Int) (h : Nat) (ns : WorkflowState) :
    (applyStepGuards i h ns).1.state.notes =
      (stepBackwardCorrection i h ns).1.state.notes := by
  show (injectRequirementsArtifact (injectPlanArtifact
      (fillInitialPlan (stepBackwardCorrection i h ns).1))).state.notes = _
  rw [(injectRequirementsArtifact_fields _).2.1, (injectPlanArtifact_fields _).2.1,
    (fillInitialPlan_fields _).2.1]

theorem applyStepGuards_fst_runLog (i : Int) (h : Nat) (ns : WorkflowState) :
    (applyStepGuards i h ns).1.runLog = (stepBackwardCorrection i h ns).1.runLog := by
  show (injectRequirementsArtifact (injectPlanArtifact
      (fillInitialPlan (stepBackwardCorrection i h ns).1))).runLog = _
  rw [(injectRequirementsArtifact_fields _).2.2.1, (injectPlanArtifact_fields _).2.2.1,
    (fillInitialPlan_fields _).2.2.1]

theorem applyStepGuards_fst_status (i : Int) (h : Nat) (ns : WorkflowState) :
    (applyStepGuards i h ns).1.status = ns.status := by
  show (injectRequirementsArtifact (injectPlanArtifact
      (fillInitialPlan (stepBackwardCorrection i h ns).1))).status = _
  rw [(injectRequirementsArtifact_fields _).2.2.2.1, (injectPlanArtifact_fields _).2.2.2.1,
    (fillInitialPlan_fields _).2.2.2.1, (stepBackwardCorrection_fields i h ns).1]

theorem applyStepGuards_fst_max (i : Int) (h : Nat) (ns : WorkflowState) :
    (applyStepGuards i h ns).1.maxIterations = ns.maxIterations := by
  show (injectRequirementsArtifact (injectPlanArtifact
      (fillInitialPlan (stepBackwardCorrection i h ns).1))).maxIterations = _
  rw [(injectRequirementsArtifact_fields _).2.2.2.2, (injectPlanArtifact_fields _).2.2.2.2,
    (fillInitialPlan_fields _).2.2.2.2, (stepBackwardCorrection_fields i h ns).2]

theorem applyStepGuards_snd (i : Int) (h : Nat) (ns : WorkflowState) :
    (applyStepGuards i h ns).2 = (stepBackwardCorrection i h ns).2 := rfl

theorem stepBackwardCorrection_correct (i : Int) (h : Nat) (ns : WorkflowState)
    (h1 : 0 < deriveStepNum ns h) (h2 : deriveStepNum ns h < h) :
    stepBackwardCorrection i h ns =
      ({ ns with
          state := { ns.state with
            progress := "Working on step " ++ toString (h + 1) ++ "...",
            notes := ns.state.notes ++ " (Corrected invalid step progression)" },
          runLog := ns.runLog ++
            [⟨i, "QA", "Corrected backward move to step " ++
              toString (deriveStepNum ns h) ++ "; advanced to " ++
              toString (h + 1)⟩] }, h + 1) := by
  simp only [stepBackwardCorrection]
  rw [if_pos (by simp only [gt_iff_lt, Bool.and_eq_true, decide_eq_true_eq]; exact ⟨h1, h2⟩)]

theorem applyStepGuards_correction (i : Int) (h : Nat) (ns : WorkflowState)
    (h1 : 0 < deriveStepNum ns h) (h2 : deriveStepNum ns h < h) :
    (applyStepGuards i h ns).1.state.progress =
      "Working on step " ++ toString (h + 1) ++ "..." ∧
    (applyStepGuards i h ns).1.runLog = ns.runLog ++
      [⟨i, "QA", "Corrected backward move to step " ++
        toString (deriveStepNum ns h) ++ "; advanced to " ++ toString (h + 1)⟩] ∧
    (applyStepGuards i h ns).1.state.notes =
      ns.state.notes ++ " (Corrected invalid step progression)" ∧
    (applyStepGuards i h ns).2 = h + 1 ∧
    (applyStepGuards i h ns).1.status = ns.status := by
  have hc := stepBackwardCorrection_correct i h ns h1 h2
  refine ⟨?_, ?_, ?_, ?_, applyStepGuards_fst_status i h ns⟩
  · rw [applyStepGuards_fst_progress, hc]
  · rw [applyStepGuards_fst_runLog, hc]
  · rw [applyStepGuards_fst_notes, hc]
  · rw [applyStepGuards_snd, hc]

theorem applyStepGuards_obs (i : Int) (h : Nat) (ns : WorkflowState) :
    h ≤ (applyStepGuards i h ns).2 ∧
    (obsStep (applyStepGuards i h ns).1 = 0 ∨
      (h ≤ obsStep (applyStepGuards i h ns).1 ∧
        obsStep (applyStepGuards i h ns).1 ≤ (applyStepGuards i h ns).2)) := by
  have hp : obsStep (applyStepGuards i h ns).1 =
      obsStep (stepBackwardCorrection i h ns).1 := by
    show (findStepSingle (applyStepGuards i h ns).1.state.progress).getD 0 = _
    rw [applyStepGuards_fst_progress]
    rfl
  rw [hp, applyStepGuards_snd]
  by_cases hc : 0 < deriveStepNum ns h ∧ deriveStepNum ns h < h
  · have hog : obsStep (stepBackwardCorrection i h ns).1 = h + 1 := by
      rw [stepBackwardCorrection_correct i h ns hc.1 hc.2]
      exact obsStep_workingOn (h + 1) _ rfl
    have hsnd : (stepBackwardCorrection i h ns).2 = h + 1 := by
      rw [stepBackwardCorrection_correct i h ns hc.1 hc.2]
    rw [hog, hsnd]
    exact ⟨Nat.le_succ h, Or.inr ⟨Nat.le_succ h, Nat.le_refl _⟩⟩
  · have hnc : stepBackwardCorrection i h ns =
        (ns, if deriveStepNum ns h > h then deriveStepNum ns h else h) := by
      simp only [stepBackwardCorrection]
      rw [if_neg (by simp only [gt_iff_lt, Bool.and_eq_true, decide_eq_true_eq]; exact hc)]
      split_ifs <;> rfl
    rw [hnc]
    constructor
    · split_ifs <;> omega
    · cases hfs : findStepSingle ns.state.progress with
      | none => left; simp [obsStep, hfs]
      | some m =>
        have hobs : obsStep ns = m := by simp [obsStep, hfs]
        have hd : deriveStepNum ns h = m := by simp [deriveStepNum, hfs]
        rw [hd] at hc
        show obsStep ns = 0 ∨ (h ≤ obsStep ns ∧ obsStep ns ≤ _)
        rw [hobs, hd]
        by_cases hm : m = 0
        · left; exact hm
        · right
          have hge : h ≤ m := by
            rcases Nat.lt_or_ge m h with hlt | hge2
            · exact absurd ⟨Nat.pos_of_ne_zero hm, hlt⟩ hc
            · exact hge2
          refine ⟨hge, ?_⟩
          split_ifs <;> omega

theorem commitIterationResult_fst (i : Int) (cur : WorkflowState) (h : Nat)
    (pending : List Artifact) (ns : WorkflowState) :
    (commitIterationResult i cur h pending ns).1 =
      (applyStepGuards i h
        (commitArtifacts cur.state.artifacts pending (mergeAndPrepare i cur ns)).1).1 := rfl

theorem commitIterationResult_snd_fst (i : Int) (cur : WorkflowState) (h : Nat)
    (pending : List Artifact) (ns : WorkflowState) :
    (commitIterationResult i cur h pending ns).2.1 =
      (applyStepGuards i h
        (commitArtifacts cur.state.artifacts pending (mergeAndPrepare i cur ns)).1).2 := rfl

theorem commitIterationResult_obs (i : Int) (cur : WorkflowState) (h : Nat)
    (pending : List Artifact) (ns : WorkflowState) :
    h ≤ (commitIterationResult i cur h pending ns).2.1 ∧
    (obsStep (commitIterationResult i cur h pending ns).1 = 0 ∨
      (h ≤ obsStep (commitIterationResult i cur h pending ns).1 ∧
        obsStep (commitIterationResult i cur h pending ns).1 ≤
          (commitIterationResult i cur h pending ns).2.1)) := by
  rw [commitIterationResult_fst, commitIterationResult_snd_fst]
  exact applyStepGuards_obs i h _

theorem mergeAndPrepare_max (i : Int) (cur ns : WorkflowState) :
    (mergeAndPrepare i cur ns).maxIterations = ns.maxIterations := by
  have h1 : ∀ m : WorkflowState, (forceStepOne i m).maxIterations = m.maxIterations := by
    intro m
    simp only [forceStepOne]
    split_ifs <;> rfl
  have h2 : ∀ m : WorkflowState,
      (ensureIterationLogEntry i cur m).maxIterations = m.maxIterations := by
    intro m
    simp only [ensureIterationLogEntry]
    split_ifs <;> rfl
  show (forceStepOne i (ensureIterationLogEntry i cur (mergeRunLogsStage cur ns))).maxIterations =
    ns.maxIterations
  rw [h1, h2]
  rfl

theorem commitArtifacts_max (prev pending : List Artifact) (ns : WorkflowState) :
    (commitArtifacts prev pending ns).1.maxIterations = ns.maxIterations := by
  simp only [commitArtifacts]
  split_ifs <;> rfl

theorem commitIterationResult_max (i : Int) (cur : WorkflowState) (h : Nat)
    (pending : List Artifact) (ns : WorkflowState) :
    (commitIterationResult i cur h pending ns).1.maxIterations = ns.maxIterations := by
  rw [commitIterationResult_fst, applyStepGuards_fst_max, commitArtifacts_max,
    mergeAndPrepare_max]

theorem preprocessIteration_cases (i : Int) (cur0 : WorkflowState) (h0 : Nat) (si : Nat → Nat) :
    (∀ p, preprocessIteration i cur0 h0 si = .halt p → obsStep p = 0 ∧ p.status = .error) ∧
    (∀ cur1 h1 si1, preprocessIteration i cur0 h0 si = .go cur1 h1 si1 →
      h0 ≤ h1 ∧ (obsStep cur1 = 0 ∨ (h0 ≤ obsStep cur1 ∧ obsStep cur1 ≤ h1))) := by
  cases hfs : findStepSingle cur0.state.progress with
  | some m =>
    have hd : deriveStepNum cur0 h0 = m := by simp [deriveStepNum, hfs]
    simp only [preprocessIteration, hd, hfs, Option.isSome_some, Bool.not_true,
      Bool.and_false, Bool.false_eq_true, if_false]
    by_cases hm0 : m = 0
    · subst hm0
      have hcb : (decide ((0 : Nat) > 0) && decide ((0 : Nat) < h0)) = false := by simp
      simp only [hcb, Bool.false_eq_true, if_false]
      rw [if_neg (Nat.lt_irrefl 0), if_neg (Nat.not_lt_zero h0)]
      constructor
      · intro p hp
        simp at hp
      · intro c1 hh1 hsi1 hgo
        injection hgo with e1 e2 e3
        subst e1
        subst e2
        exact ⟨Nat.le_refl h0, Or.inl (by simp [obsStep, hfs])⟩
    · have hpos : 0 < m := Nat.pos_of_ne_zero hm0
      by_cases hlt : m < h0
      · have hcb : (decide (m > 0) && decide (m < h0)) = true := by
          simp only [Bool.and_eq_true, decide_eq_true_eq]
          exact ⟨hpos, hlt⟩
        simp only [hcb, if_true]
        constructor
        · intro p hp
          injection hp with e
          subst e
          refine ⟨?_, rfl⟩
          show (findStepSingle "Error: Invalid step progression detected").getD 0 = 0
          decide
        · intro c1 hh1 hsi1 hgo
          simp at hgo
      · have hge : h0 ≤ m := Nat.le_of_not_lt hlt
        have hcb : (decide (m > 0) && decide (m < h0)) = false := by
          simp [hlt]
        simp only [hcb, Bool.false_eq_true, if_false]
        rw [if_pos hpos]
        split_ifs <;>
          refine ⟨fun p hp => by simp at hp, fun c1 hh1 hsi1 hgo => ?_⟩ <;>
          (injection hgo with e1 e2 e3
           subst e1
           subst e2
           refine ⟨by omega, Or.inr ⟨?_, ?_⟩⟩) <;>
          (simp only [obsStep, findStepSingle_workingOn, hfs, Option.getD_some]
           omega)
  | none =>
    have hd : deriveStepNum cur0 h0 =
        (if cur0.state.steps.length > 0 then max 1 h0 else 0) := by
      simp [deriveStepNum, hfs]
    by_cases hsteps : cur0.state.steps.length > 0
    · have hd2 : deriveStepNum cur0 h0 = max 1 h0 := by rw [hd, if_pos hsteps]
      have hpos : 0 < max 1 h0 := by omega
      have hbf : (decide (max 1 h0 > 0) &&
          !(findStepSingle cur0.state.progress).isSome) = true := by
        rw [hfs]
        simp [hpos]
      simp only [preprocessIteration, hd2]
      simp only [hbf, if_true]
      have hnlt : ¬ (max 1 h0 < h0) := by omega
      have hcb : (decide (max 1 h0 > 0) && decide (max 1 h0 < h0)) = false := by
        simp [hnlt]
      simp only [hcb, Bool.false_eq_true, if_false]
      rw [if_pos hpos]
      split_ifs <;>
        refine ⟨fun p hp => by simp at hp, fun c1 hh1 hsi1 hgo => ?_⟩ <;>
        (injection hgo with e1 e2 e3
         subst e1
         subst e2
         refine ⟨by omega, Or.inr ⟨?_, ?_⟩⟩) <;>
        (simp only [obsStep, findStepSingle_workingOn, Option.getD_some]
         omega)
    · have hd2 : deriveStepNum cur0 h0 = 0 := by rw [hd, if_neg hsteps]
      have hbf : (decide ((0 : Nat) > 0) &&
          !(findStepSingle cur0.state.progress).isSome) = false := by
        simp
      simp only [preprocessIteration, hd2]
      simp only [hbf, Bool.false_eq_true, if_false]
      have hcb : (decide ((0 : Nat) > 0) && decide ((0 : Nat) < h0)) = false := by simp
      simp only [hcb, Bool.false_eq_true, if_false]
      rw [if_neg (Nat.lt_irrefl 0), if_neg (Nat.not_lt_zero h0)]
      constructor
      · intro p hp
        simp at hp
      · intro c1 hh1 hsi1 hgo
        injection hgo with e1 e2 e3
        subst e1
        subst e2
        exact ⟨Nat.le_refl h0, Or.inl (by simp [obsStep, hfs])⟩

theorem countCompleted_nil : countCompleted [] = 0 := rfl

theorem countCompleted_cons (c : WorkflowState) (tr : List WorkflowState) :
    countCompleted (c :: tr) =
      (if c.status == Status.completed then 1 else 0) + countCompleted tr := by
  simp only [countCompleted, List.filter_cons]
  split_ifs with h
  · simp only [List.length_cons]
    omega
  · omega

theorem qaForcedFinal_obs (c : WorkflowState) : obsStep (qaForcedFinal c) = obsStep c := rfl

theorem qaForcedFinal_status (c : WorkflowState) :
    (qaForcedFinal c).status = Status.completed := rfl

theorem qaAdvanceState_status (c : WorkflowState) (n : Nat) :
    (qaAdvanceState c n).status = c.status := rfl

theorem qaAdvanceState_max (c : WorkflowState) (n : Nat) :
    (qaAdvanceState c n).maxIterations = c.maxIterations := rfl

theorem postCommitControl_cases (c : WorkflowState) (h2 qa0 att0 : Nat) :
    (∀ extra, postCommitControl c h2 qa0 att0 = .halt extra → ChainGE (obsStep c) extra) ∧
    (∀ cur2 qa2 att2 h3, postCommitControl c h2 qa0 att0 = .go cur2 qa2 att2 h3 →
      h2 ≤ h3) := by
  constructor
  · intro extra hx
    simp only [postCommitControl] at hx
    split_ifs at hx
    all_goals injection hx with e
    all_goals rw [← e]
    all_goals
      first
      | exact trivial
      | exact ⟨fun _ => Nat.le_of_eq (qaForcedFinal_obs c).symm, trivial⟩
  · intro cur2 qa2 att2 h3 hx
    simp only [postCommitControl] at hx
    split_ifs at hx
    all_goals injection hx with e1 e2 e3 e4
    all_goals subst e4
    all_goals
      first
      | exact Nat.le_refl _
      | exact Nat.le_max_left _ _
      | omega

theorem postCommitControl_go_facts (c : WorkflowState) (h2 qa0 att0 : Nat)
    (hatt : att0 ≤ 1) (cur2 : WorkflowState) (qa2 att2 h3 : Nat)
    (hgo : postCommitControl c h2 qa0 att0 = .go cur2 qa2 att2 h3) :
    cur2.maxIterations = c.maxIterations ∧ att2 ≤ 1 ∧
    (c.status = .completed → att2 = att0 + 1) ∧
    (c.status ≠ .completed → att2 = att0) := by
  simp only [postCommitControl] at hgo
  split_ifs at hgo
  all_goals injection hgo with e1 e2 e3 e4
  all_goals subst e1
  all_goals subst e3
  all_goals
    refine ⟨rfl, by omega, fun hcs => ?_, fun hcs => ?_⟩ <;> simp_all [qaAdvanceState]

theorem postCommitControl_halt_count (c : WorkflowState) (h2 qa0 att0 : Nat)
    (hatt : att0 ≤ 1) (extra : List WorkflowState)
    (hh : postCommitControl c h2 qa0 att0 = .halt extra) :
    countCompleted (c :: extra) + att0 ≤ 2 := by
  simp only [postCommitControl] at hh
  split_ifs at hh
  all_goals injection hh with e
  all_goals subst e
  all_goals
    (simp_all [countCompleted_cons, countCompleted_nil, qaForcedFinal_status, qaAdvanceState]
     try omega)

theorem loopGo_chainGE (iter : Int → WorkflowState → Except String WorkflowState) :
    ∀ (fuel : Nat) (i : Int) (st : LoopSt) (prev : Nat), prev ≤ st.highest →
      ChainGE prev (traceOf (loopGo iter fuel i st)) := by
  intro fuel
  induction fuel with
  | zero =>
    intro i st prev hprev
    simp only [loopGo]
    split_ifs <;> exact trivial
  | succ f ih =>
    intro i st prev hprev
    simp only [loopGo]
    split_ifs with hstop
    · exact trivial
    · simp only [loopBody]
      cases hpre : preprocessIteration i st.cur st.highest st.stepIters with
      | halt p =>
        simp only [hpre]
        have hobs := ((preprocessIteration_cases i st.cur st.highest st.stepIters).1 p hpre).1
        exact ⟨fun hpos => by omega, trivial⟩
      | go cur1 h1 si1 =>
        simp only [hpre]
        have hpre2 := (preprocessIteration_cases i st.cur st.highest st.stepIters).2
          cur1 h1 si1 hpre
        cases hit : iter i cur1 with
        | error e =>
          simp only [hit]
          refine ⟨fun hpos => ?_, trivial⟩
          have hx : obsStep { cur1 with status := Status.error } = obsStep cur1 := rfl
          rw [hx] at hpos ⊢
          rcases hpre2.2 with h0 | ⟨hge, _⟩
          · omega
          · omega
        | ok ns =>
          simp only [hit]
          have hco := commitIterationResult_obs i cur1 h1 st.pending ns
          cases hpost : postCommitControl (commitIterationResult i cur1 h1 st.pending ns).1
              (commitIterationResult i cur1 h1 st.pending ns).2.1
              st.qaIterations st.completionAttempts with
          | halt extra =>
            simp only [hpost]
            refine ⟨fun hpos => ?_, ?_⟩
            · rcases hco.2 with hz | ⟨hge, _⟩
              · omega
              · have := hpre2.1
                omega
            · exact (postCommitControl_cases _ _ _ _).1 extra hpost
          | go cur2 qa2 att2 h3 =>
            simp only [hpost]
            have hle := (postCommitControl_cases _ _ _ _).2 cur2 qa2 att2 h3 hpost
            have hinv : obsStep (commitIterationResult i cur1 h1 st.pending ns).1 ≤ h3 := by
              rcases hco.2 with hz | ⟨_, hup⟩
              · omega
              · omega
            cases hrec : loopGo iter f (i + 1) ⟨cur2, att2, qa2, si1, h3,
                (commitIterationResult i cur1 h1 st.pending ns).2.2⟩ with
            | finished tr n =>
              simp only [hrec]
              refine ⟨fun hpos => ?_, ?_⟩
              · rcases hco.2 with hz | ⟨hge, _⟩
                · omega
                · have := hpre2.1
                  omega
              · have htail := ih (i + 1) ⟨cur2, att2, qa2, si1, h3,
                  (commitIterationResult i cur1 h1 st.pending ns).2.2⟩
                  (obsStep (commitIterationResult i cur1 h1 st.pending ns).1) hinv
                rw [hrec] at htail
                exact htail
            | fuelOut tr n =>
              simp only [hrec]
              refine ⟨fun hpos => ?_, ?_⟩
              · rcases hco.2 with hz | ⟨hge, _⟩
                · omega
                · have := hpre2.1
                  omega
              · have htail := ih (i + 1) ⟨cur2, att2, qa2, si1, h3,
                  (commitIterationResult i cur1 h1 st.pending ns).2.2⟩
                  (obsStep (commitIterationResult i cur1 h1 st.pending ns).1) hinv
                rw [hrec] at htail
                exact htail

theorem postCommitControl_go_max (c : WorkflowState) (h2 qa0 att0 : Nat)
    (cur2 : WorkflowState) (qa2 att2 h3 : Nat)
    (hgo : postCommitControl c h2 qa0 att0 = .go cur2 qa2 att2 h3) :
    cur2.maxIterations = c.maxIterations := by
  simp only [postCommitControl] at hgo
  split_ifs at hgo
  all_goals injection hgo with e1 e2 e3 e4
  all_goals rw [← e1]
  all_goals rfl

theorem loopBody_next_max (iter : Int → WorkflowState → Except String WorkflowState)
    (M : Int) (hiter : ∀ j s s', iter j s = .ok s' → s'.maxIterations ≤ M)
    (i : Int) (st st1 : LoopSt) (pushed : List WorkflowState)
    (hb : loopBody iter i st = .next st1 pushed) : st1.cur.maxIterations ≤ M := by
  simp only [loopBody] at hb
  cases hpre : preprocessIteration i st.cur st.highest st.stepIters with
  | halt p =>
    simp only [hpre] at hb
    simp at hb
  | go cur1 h1 si1 =>
    simp only [hpre] at hb
    cases hit : iter i cur1 with
    | error e =>
      simp only [hit] at hb
      simp at hb
    | ok ns =>
      simp only [hit] at hb
      cases hpost : postCommitControl (commitIterationResult i cur1 h1 st.pending ns).1
          (commitIterationResult i cur1 h1 st.pending ns).2.1
          st.qaIterations st.completionAttempts with
      | halt extra =>
        simp only [hpost] at hb
        simp at hb
      | go cur2 qa2 att2 h3 =>
        simp only [hpost] at hb
        injection hb with hb1 hb2
        rw [← hb1]
        show cur2.maxIterations ≤ M
        have hmax := postCommitControl_go_max
          (commitIterationResult i cur1 h1 st.pending ns).1
          (commitIterationResult i cur1 h1 st.pending ns).2.1
          st.qaIterations st.completionAttempts cur2 qa2 att2 h3 hpost
        rw [hmax, commitIterationResult_max]
        exact hiter i cur1 ns hit

theorem loopGo_finishes (iter : Int → WorkflowState → Except String WorkflowState)
    (M : Int) (hiter : ∀ j s s', iter j s = .ok s' → s'.maxIterations ≤ M) :
    ∀ (fuel : Nat) (i : Int) (st : LoopSt), st.cur.maxIterations ≤ M →
      (M - i + 1).toNat ≤ fuel →
      finishedOf (loopGo iter fuel i st) = true ∧
      itersOf (loopGo iter fuel i st) ≤ (M - i + 1).toNat := by
  intro fuel
  induction fuel with
  | zero =>
    intro i st hmax hfuel
    have hgt : i > st.cur.maxIterations := by omega
    simp only [loopGo, if_pos hgt]
    exact ⟨rfl, Nat.zero_le _⟩
  | succ f ih =>
    intro i st hmax hfuel
    by_cases hgt : i > st.cur.maxIterations
    · simp only [loopGo, if_pos hgt]
      exact ⟨rfl, Nat.zero_le _⟩
    · simp only [loopGo, if_neg hgt]
      have hile : i ≤ M := by omega
      have hone : 1 ≤ (M - i + 1).toNat := by omega
      cases hb : loopBody iter i st with
      | stop pushed =>
        exact ⟨rfl, hone⟩
      | next st1 pushed =>
        have hst1 : st1.cur.maxIterations ≤ M :=
          loopBody_next_max iter M hiter i st st1 pushed hb
        have hfuel2 : (M - (i + 1) + 1).toNat ≤ f := by omega
        obtain ⟨hf, hn⟩ := ih (i + 1) st1 hst1 hfuel2
        cases hrec : loopGo iter f (i + 1) st1 with
        | finished tr n =>
          simp only [hrec]
          rw [hrec] at hn
          refine ⟨rfl, ?_⟩
          show n + 1 ≤ (M - i + 1).toNat
          have : itersOf (LoopOut.finished tr n) = n := rfl
          omega
        | fuelOut tr n =>
          rw [hrec] at hf
          simp [finishedOf] at hf

theorem countCompleted_loopGo (iter : Int → WorkflowState → Except String WorkflowState) :
    ∀ (fuel : Nat) (i : Int) (st : LoopSt), st.completionAttempts ≤ 1 →
      countCompleted (traceOf (loopGo iter fuel i st)) + st.completionAttempts ≤ 2 := by
  intro fuel
  induction fuel with
  | zero =>
    intro i st hatt
    simp only [loopGo]
    split_ifs <;> (show countCompleted [] + st.completionAttempts ≤ 2; rw [countCompleted_nil]; omega)
  | succ f ih =>
    intro i st hatt
    simp only [loopGo]
    split_ifs with hstop
    · show countCompleted [] + st.completionAttempts ≤ 2
      rw [countCompleted_nil]
      omega
    · simp only [loopBody]
      cases hpre : preprocessIteration i st.cur st.highest st.stepIters with
      | halt p =>
        simp only [hpre]
        have hp := ((preprocessIteration_cases i st.cur st.highest st.stepIters).1 p hpre).2
        show countCompleted [p] + st.completionAttempts ≤ 2
        rw [countCompleted_cons, countCompleted_nil]
        have hb : (p.status == Status.completed) = false := by
          rw [hp]
          rfl
        rw [hb]
        split_ifs <;> first | omega | simp_all
      | go cur1 h1 si1 =>
        simp only [hpre]
        cases hit : iter i cur1 with
        | error e =>
          simp only [hit]
          show countCompleted [{ cur1 with status := Status.error }] +
            st.completionAttempts ≤ 2
          rw [countCompleted_cons, countCompleted_nil]
          have hb : ({ cur1 with status := Status.error }.status == Status.completed) = false := rfl
          rw [hb]
          split_ifs <;> first | omega | simp_all
        | ok ns =>
          simp only [hit]
          cases hpost : postCommitControl (commitIterationResult i cur1 h1 st.pending ns).1
              (commitIterationResult i cur1 h1 st.pending ns).2.1
              st.qaIterations st.completionAttempts with
          | halt extra =>
            simp only [hpost]
            exact postCommitControl_halt_count _ _ _ _ hatt extra hpost
          | go cur2 qa2 att2 h3 =>
            simp only [hpost]
            have hfacts := postCommitControl_go_facts _ _ _ _ hatt cur2 qa2 att2 h3 hpost
            have hr := ih (i + 1) ⟨cur2, att2, qa2, si1, h3,
              (commitIterationResult i cur1 h1 st.pending ns).2.2⟩ hfacts.2.1
            cases hrec : loopGo iter f (i + 1) ⟨cur2, att2, qa2, si1, h3,
                (commitIterationResult i cur1 h1 st.pending ns).2.2⟩ with
            | finished tr n =>
              simp only [hrec]
              rw [hrec] at hr
              show countCompleted ((commitIterationResult i cur1 h1 st.pending ns).1 :: tr) +
                st.completionAttempts ≤ 2
              rw [countCompleted_cons]
              have hr2 : countCompleted tr + att2 ≤ 2 := hr
              by_cases hcs : (commitIterationResult i cur1 h1 st.pending ns).1.status =
                  Status.completed
              · have hb : ((commitIterationResult i cur1 h1 st.pending ns).1.status ==
                    Status.completed) = true := by rw [hcs]; rfl
                rw [hb]
                have hai := hfacts.2.2.1 hcs
                split_ifs <;> first | omega | simp_all
              · have hb : ((commitIterationResult i cur1 h1 st.pending ns).1.status ==
                    Status.completed) = false := by
                  simpa using hcs
                rw [hb]
                have hai := hfacts.2.2.2 hcs
                split_ifs <;> first | omega | simp_all
            | fuelOut tr n =>
              simp only [hrec]
              rw [hrec] at hr
              show countCompleted ((commitIterationResult i cur1 h1 st.pending ns).1 :: tr) +
                st.completionAttempts ≤ 2
              rw [countCompleted_cons]
              have hr2 : countCompleted tr + att2 ≤ 2 := hr
              by_cases hcs : (commitIterationResult i cur1 h1 st.pending ns).1.status =
                  Status.completed
              · have hb : ((commitIterationResult i cur1 h1 st.pending ns).1.status ==
                    Status.completed) = true := by rw [hcs]; rfl
                rw [hb]
                have hai := hfacts.2.2.1 hcs
                split_ifs <;> first | omega | simp_all
              · have hb : ((commitIterationResult i cur1 h1 st.pending ns).1.status ==
                    Status.completed) = false := by
                  simpa using hcs
                rw [hb]
                have hai := hfacts.2.2.2 hcs
                split_ifs <;> first | omega | simp_all

end GuardLemmas

section ClaimC1

/-- C1 (amended): along every published state sequence of the loop driver,
any state with a positive observable step number carries one at least as
large as its predecessor bound — a state whose observable step number is 0,
as happens when the model wipes steps and progress, is exempt, so the spec's
unconditional monotonicity does not hold.  And whenever the model-returned
state derives a step number strictly below the high-water mark, the
post-iteration guard advances progress to one past the mark, appends the
corrective QA run-log entry, records the correction in the notes, raises the
mark and leaves the status unchanged, so the run continues. -/
theorem c1_monotonic_steps (iter : Int → WorkflowState → Except String WorkflowState)
    (s0 : WorkflowState) (start : Int) (fuel : Nat) (i : Int) (highest : Nat)
    (ns0 : WorkflowState) :
    ChainGE 0 (traceOf (runWorkflowLoop iter s0 start fuel)) ∧
    (0 < deriveStepNum ns0 highest → deriveStepNum ns0 highest < highest →
      (applyStepGuards i highest ns0).1.state.progress =
        "Working on step " ++ toString (highest + 1) ++ "..." ∧
      (applyStepGuards i highest ns0).1.runLog = ns0.runLog ++
        [⟨i, "QA", "Corrected backward move to step " ++
          toString (deriveStepNum ns0 highest) ++ "; advanced to " ++
          toString (highest + 1)⟩] ∧
      (applyStepGuards i highest ns0).1.state.notes =
        ns0.state.notes ++ " (Corrected invalid step progression)" ∧
      (applyStepGuards i highest ns0).2 = highest + 1 ∧
      (applyStepGuards i highest ns0).1.status = ns0.status) :=
  ⟨loopGo_chainGE iter fuel start (initialLoopSt s0) 0 (Nat.le_refl 0),
   fun h1 h2 => applyStepGuards_correction i highest ns0 h1 h2⟩

/-- A model-returned state whose derived step number 1 falls below the
high-water mark 3. -/
def c1corr : WorkflowState :=
  { emptyState with state := { emptyState.state with
      progress := "Working on step 1..." } }

theorem c1_monotonic_steps_witness :
    ChainGE 0 (traceOf (runWorkflowLoop (fun _ s => Except.ok s) emptyState 0 2)) ∧
    ((applyStepGuards 5 3 c1corr).1.state.progress =
        "Working on step " ++ toString (3 + 1) ++ "..." ∧
      (applyStepGuards 5 3 c1corr).1.runLog = c1corr.runLog ++
        [⟨5, "QA", "Corrected backward move to step " ++
          toString (deriveStepNum c1corr 3) ++ "; advanced to " ++
          toString (3 + 1)⟩] ∧
      (applyStepGuards 5 3 c1corr).1.state.notes =
        c1corr.state.notes ++ " (Corrected invalid step progression)" ∧
      (applyStepGuards 5 3 c1corr).2 = 3 + 1 ∧
      (applyStepGuards 5 3 c1corr).1.status = c1corr.status) :=
  have h := c1_monotonic_steps (fun _ s => Except.ok s) emptyState 0 2 5 3 c1corr
  ⟨h.1, h.2 (by decide) (by decide)⟩

/-- Initial state of the concrete regression run. -/
def c1init : WorkflowState := { emptyState with maxIterations := 1 }

/-- First model reply: steps planned, progress at step 2. -/
def c1nsA : WorkflowState :=
  { emptyState with
      maxIterations := 1,
      runLog := [⟨0, "Worker", "did work"⟩],
      state := { emptyState.state with
        steps := ["a", "b"], progress := "Working on step 2..." } }

/-- Second model reply: steps wiped and progress without a step number. -/
def c1nsB : WorkflowState :=
  { emptyState with
      maxIterations := 1,
      runLog := [⟨1, "Worker", "wrapping up"⟩],
      state := { emptyState.state with progress := "All done" } }

/-- The provider oracle of the concrete regression run. -/
def c1iter : Int → WorkflowState → Except String WorkflowState :=
  fun i _ => if i == 0 then Except.ok c1nsA else Except.ok c1nsB

theorem c1_step_regression_counterexample :
    (traceOf (runWorkflowLoop c1iter c1init 0 3)).map obsStep = [2, 0] ∧
    finishedOf (runWorkflowLoop c1iter c1init 0 3) = true := by
  refine ⟨by decide, by decide⟩

end ClaimC1

section ClaimC2

/-- C2 (amended): when the maxIterations bound is at most M along the run —
initially and in every model-returned state; the source re-reads the bound
from the evolving state each iteration, so a model that inflates it extends
the run past the original budget — the loop driver terminates within
(M - start + 1) loop-body executions rather than looping indefinitely, and
at most 2 published states are marked completed (the completion debounce).
The returned status is not always in the claimed closed set: a run that
exhausts its iteration budget ends still running. -/
theorem c2_termination (iter : Int → WorkflowState → Except String WorkflowState)
    (s0 : WorkflowState) (start M : Int) (fuel : Nat)
    (h0 : s0.maxIterations ≤ M)
    (hiter : ∀ j s s', iter j s = Except.ok s' → s'.maxIterations ≤ M)
    (hfuel : (M - start + 1).toNat ≤ fuel) :
    finishedOf (runWorkflowLoop iter s0 start fuel) = true ∧
    itersOf (runWorkflowLoop iter s0 start fuel) ≤ (M - start + 1).toNat ∧
    countCompleted (traceOf (runWorkflowLoop iter s0 start fuel)) ≤ 2 := by
  simp only [runWorkflowLoop]
  obtain ⟨hf, hn⟩ := loopGo_finishes iter M hiter fuel start (initialLoopSt s0) h0 hfuel
  refine ⟨hf, hn, ?_⟩
  have hc := countCompleted_loopGo iter fuel start (initialLoopSt s0) (Nat.zero_le 1)
  omega

/-- The constant model reply of the termination witness run. -/
def c2witModel : WorkflowState :=
  { emptyState with maxIterations := 1, runLog := [⟨1, "Worker", "w"⟩] }

theorem c2_termination_witness :
    finishedOf (runWorkflowLoop (fun _ _ => Except.ok c2witModel) emptyState 1 10) = true ∧
    itersOf (runWorkflowLoop (fun _ _ => Except.ok c2witModel) emptyState 1 10) ≤
      ((10 : Int) - 1 + 1).toNat ∧
    countCompleted (traceOf
      (runWorkflowLoop (fun _ _ => Except.ok c2witModel) emptyState 1 10)) ≤ 2 :=
  c2_termination (fun _ _ => Except.ok c2witModel) emptyState 1 10 10
    (by decide)
    (fun j s s' hh => by
      injection hh with h2
      rw [← h2]
      decide)
    (by decide)

/-- Initial state with an iteration budget of 1. -/
def c2initB : WorkflowState := { emptyState with maxIterations := 1 }

/-- A model reply that inflates maxIterations to 2 while staying running. -/
def c2infl : WorkflowState :=
  { emptyState with maxIterations := 2, runLog := [⟨1, "Worker", "working"⟩] }

/-- The inflating provider oracle. -/
def c2iterInfl : Int → WorkflowState → Except String WorkflowState :=
  fun _ _ => Except.ok c2infl

theorem c2_budget_counterexample :
    c2initB.maxIterations = 1 ∧
    itersOf (runWorkflowLoop c2iterInfl c2initB 1 10) = 2 ∧
    (traceOf (runWorkflowLoop c2iterInfl c2initB 1 10)).map (fun s => s.status) =
      [Status.running, Status.running] := by
  refine ⟨by decide, by decide, by decide⟩

end ClaimC2

section ClaimC4

/-- C4 (amended): the loop controller copies the steps list into initialPlan
exactly when the model-returned state has non-empty steps and an empty
initialPlan; otherwise it accepts the model-returned initialPlan unchanged —
in particular a model that rewrites a non-empty initialPlan is not reverted. -/
theorem c4_initial_plan_fill_only (i : Int) (highest : Nat) (ns0 : WorkflowState) :
    (applyStepGuards i highest ns0).1.state.initialPlan =
      (if ns0.state.steps.length > 0 && ns0.state.initialPlan.length == 0 then
        ns0.state.steps else ns0.state.initialPlan) := by
  show (injectRequirementsArtifact (injectPlanArtifact
      (fillInitialPlan (stepBackwardCorrection i highest ns0).1))).state.initialPlan = _
  rw [injectRequirementsArtifact_initialPlan, injectPlanArtifact_initialPlan,
    fillInitialPlan_initialPlan, stepBackwardCorrection_steps,
    stepBackwardCorrection_initialPlan]

/-- Model-returned state of the first concrete iteration: steps planned,
initialPlan still empty. -/
def c4ns1 : WorkflowState :=
  { emptyState with
      runLog := [⟨1, "Worker", "planned"⟩],
      state := { emptyState.state with
        steps := ["s1", "s2"], progress := "Working on step 1..." } }

/-- Model-returned state of the second concrete iteration: the model rewrote
the non-empty initialPlan. -/
def c4ns2 : WorkflowState :=
  { emptyState with
      runLog := [⟨2, "Worker", "work"⟩],
      state := { emptyState.state with
        steps := ["s1", "s2"], initialPlan := ["HACKED"],
        progress := "Working on step 1..." } }

theorem c4_initial_plan_not_reverted_counterexample :
    (commitIterationResult 1 emptyState 0 [] c4ns1).1.state.initialPlan =
      ["s1", "s2"] ∧
    (commitIterationResult 2 (commitIterationResult 1 emptyState 0 [] c4ns1).1
      0 [] c4ns2).1.state.initialPlan = ["HACKED"] := by
  refine ⟨by decide, by decide⟩

end ClaimC4

section ClaimC3

/-- C3 (amended): when both provider-call attempts throw, a single workflow
iteration makes exactly 2 call attempts and returns, rather than throwing, a
state with status error whose runLog is the format-enforced input runLog
(each entry trimmed and prefixed with its agent) plus exactly one appended
QA entry naming the failure and containing the text Workflow error, whose
notes carry the same failure message, and whose artifacts, steps,
initialPlan and goal are unchanged. -/
theorem c3_provider_double_failure
    (call : Nat → Except String WorkflowState) (searchWeb : String → SearchOutcome)
    (ragContent : Option String) (currentState : WorkflowState)
    (e1 e2 : String) (h0 : call 0 = .error e1) (h1 : call 1 = .error e2) :
    (runWorkflowIteration call searchWeb ragContent currentState).2 = 2 ∧
    (runWorkflowIteration call searchWeb ragContent currentState).1.status = .error ∧
    (runWorkflowIteration call searchWeb ragContent currentState).1.runLog =
      enforceRunLogFormat (currentState.runLog ++
        [⟨currentState.currentIteration + 1, "QA", "Workflow error: " ++ e2⟩]) ∧
    (∃ e ∈ (runWorkflowIteration call searchWeb ragContent currentState).1.runLog,
      e.agent = "QA" ∧ containsSub e.summary "Workflow error" = true) ∧
    (runWorkflowIteration call searchWeb ragContent currentState).1.state.notes =
      appendNote currentState.state.notes ("Workflow error: " ++ e2) ∧
    containsSub (runWorkflowIteration call searchWeb ragContent currentState).1.state.notes
      "Workflow error" = true ∧
    (runWorkflowIteration call searchWeb ragContent currentState).1.state.artifacts =
      currentState.state.artifacts ∧
    (runWorkflowIteration call searchWeb ragContent currentState).1.state.steps =
      currentState.state.steps ∧
    (runWorkflowIteration call searchWeb ragContent currentState).1.state.initialPlan =
      currentState.state.initialPlan ∧
    (runWorkflowIteration call searchWeb ragContent currentState).1.goal =
      currentState.goal := by
  have hrun : runWorkflowIteration call searchWeb ragContent currentState =
      ({ currentState with
          status := .error,
          runLog := enforceRunLogFormat (currentState.runLog ++
            [⟨currentState.currentIteration + 1, "QA", "Workflow error: " ++ e2⟩]),
          state := { currentState.state with
            notes := appendNote currentState.state.notes ("Workflow error: " ++ e2) } }, 2) := by
    simp only [runWorkflowIteration, h0, h1]
  rw [hrun]
  have hsplitw : ("Workflow error: " ++ e2) = "Workflow error:" ++ (" " ++ e2) := by
    have h1 : ("Workflow error: " : String) = "Workflow error:" ++ " " := by decide
    rw [h1, String.append_assoc]
  obtain ⟨t, ht⟩ := jsTrim_head_keeps (a := "Workflow error:") (b := " " ++ e2)
    (by decide) (by decide) (by decide)
  have htrim : (jsTrim ("Workflow error: " ++ e2)).data = ("Workflow error:").data ++ t := by
    rw [hsplitw]; exact ht
  have hlow : (lowerStr (jsTrim ("Workflow error: " ++ e2))).data =
      'w' :: ("orkflow error:".data ++ t).map Char.toLower := by
    show ((jsTrim ("Workflow error: " ++ e2)).data).map Char.toLower = _
    rw [htrim]
    have hW : ("Workflow error:".data : List Char) = 'W' :: "orkflow error:".data := by
      decide
    rw [hW]
    simp
  have hpfx : startsWithStr (lowerStr (jsTrim ("Workflow error: " ++ e2)))
      (lowerStr ("QA" ++ ":")) = false := by
    show (lowerStr ("QA" ++ ":")).data.isPrefixOf
      (lowerStr (jsTrim ("Workflow error: " ++ e2))).data = false
    have hq : ((lowerStr ("QA" ++ ":")).data : List Char) = ['q', 'a', ':'] := by decide
    rw [hq, hlow]
    have hch : ('q' == 'w') = false := by decide
    simp [List.isPrefixOf, hch]
  have hform := enforceRunLogEntry_not_pref
    ⟨currentState.currentIteration + 1, "QA", "Workflow error: " ++ e2⟩ hpfx
  have hsummary : (enforceRunLogEntry
      ⟨currentState.currentIteration + 1, "QA", "Workflow error: " ++ e2⟩).summary =
      "QA" ++ ":" ++ " " ++ jsTrim ("Workflow error: " ++ e2) := by
    rw [hform]
  refine ⟨rfl, rfl, rfl, ?_, rfl, ?_, rfl, rfl, rfl, rfl⟩
  · refine ⟨enforceRunLogEntry
      ⟨currentState.currentIteration + 1, "QA", "Workflow error: " ++ e2⟩, ?_, ?_, ?_⟩
    · exact List.mem_map_of_mem enforceRunLogEntry (by simp)
    · simp only [enforceRunLogEntry]
      split <;> rfl
    · show containsSub _ _ = true
      rw [hsummary]
      show containsChars _ _ = true
      rw [String.data_append, String.data_append, htrim]
      have hy : ("Workflow error:".data : List Char) = "Workflow error".data ++ [':'] := by
        decide
      refine containsChars_decomp _ (("QA" ++ ":").data ++ " ".data) (':' :: t) ?_
      rw [hy]
      simp [List.append_assoc]
  · show containsSub (appendNote _ _) _ = true
    by_cases hn : currentState.state.notes == ""
    · refine containsSub_of_decomp "" (": " ++ e2) ?_
      simp only [appendNote, hn, if_pos]
      rw [hsplitw]
      have : ("Workflow error:" : String) = "Workflow error" ++ ":" := by decide
      rw [this]
      simp [String.append_assoc]
      rfl
    · refine containsSub_of_decomp (currentState.state.notes ++ " | ") (": " ++ e2) ?_
      simp only [appendNote, hn, if_neg]
      rw [hsplitw]
      have : ("Workflow error:" : String) = "Workflow error" ++ ":" := by decide
      rw [this]
      simp [String.append_assoc]
      rfl


/-- An input state whose runLog holds an entry not yet in prefixed form. -/
def c3state : WorkflowState :=
  { emptyState with runLog := [⟨1, "Worker", "did stuff"⟩] }

theorem c3_provider_double_failure_witness :
    (runWorkflowIteration (fun _ => Except.error "boom")
      (fun _ => SearchOutcome.fail "offline") none emptyState).2 = 2 ∧
    (runWorkflowIteration (fun _ => Except.error "boom")
      (fun _ => SearchOutcome.fail "offline") none emptyState).1.status = .error ∧
    containsSub (runWorkflowIteration (fun _ => Except.error "boom")
      (fun _ => SearchOutcome.fail "offline") none emptyState).1.state.notes
      "Workflow error" = true :=
  have h := c3_provider_double_failure (fun _ => Except.error "boom")
    (fun _ => SearchOutcome.fail "offline") none emptyState "boom" "boom" rfl rfl
  ⟨h.1, h.2.1, h.2.2.2.2.2.1⟩

theorem c3_runlog_not_preserved_counterexample :
    (runWorkflowIteration (fun _ => Except.error "boom")
      (fun _ => SearchOutcome.fail "offline") none c3state).1.runLog =
      [⟨1, "Worker", "Worker: did stuff"⟩,
       ⟨1, "QA", "QA: Workflow error: boom"⟩] ∧
    (runWorkflowIteration (fun _ => Except.error "boom")
      (fun _ => SearchOutcome.fail "offline") none c3state).1.runLog.head? ≠
      c3state.runLog.head? := by
  refine ⟨rfl, by decide⟩

end ClaimC3

section ClaimC9

/-- Validity of the raw status field: a string among the allowed statuses. -/
def rawStatusValid (raw : JVal) : Bool :=
  match jField raw "status" with
  | some (.str s) => allowedStatusStrings.contains s
  | _ => false

/-- Whether an optional raw field is an array. -/
def rawIsArr (v : Option JVal) : Bool :=
  match v with
  | some (.arr _) => true
  | _ => false

/-- Whether an optional raw field is a string. -/
def rawIsStr (v : Option JVal) : Bool :=
  match v with
  | some (.str _) => true
  | _ => false

/-- Validity of the raw resultType field: one of code, text, table. -/
def rawResultTypeValid (raw : JVal) : Bool :=
  match jField raw "resultType" with
  | some (.str s) => s == "code" || s == "text" || s == "table"
  | _ => false

/-- Raw element list of the runLog field, empty when it is not an array. -/
def rawRunLogEntries (raw : JVal) : List JVal :=
  match jField raw "runLog" with
  | some (.arr es) => es
  | _ => []

theorem isPrefixOf_append_self (u v : List Char) : u.isPrefixOf (u ++ v) = true := by
  rw [List.isPrefixOf_iff_prefix]
  exact List.prefix_append u v

theorem enforceRunLogEntry_prefixed (e : RunLogEntry) :
    startsWithStr (lowerStr (enforceRunLogEntry e).summary)
      (lowerStr ((enforceRunLogEntry e).agent ++ ":")) = true := by
  simp only [enforceRunLogEntry]
  by_cases h : startsWithStr (lowerStr (jsTrim e.summary)) (lowerStr (e.agent ++ ":")) = true
  · rw [if_pos h]
    exact h
  · rw [if_neg h]
    have hdata : (e.agent ++ ":" ++ " " ++ jsTrim e.summary).data =
        (e.agent ++ ":").data ++ (" ".data ++ (jsTrim e.summary).data) := by
      rw [String.data_append, String.data_append, List.append_assoc]
    show ((e.agent ++ ":").data.map Char.toLower).isPrefixOf
      ((e.agent ++ ":" ++ " " ++ jsTrim e.summary).data.map Char.toLower) = true
    rw [hdata, List.map_append]
    exact isPrefixOf_append_self _ _

/-- C9 (amended): the normalizer is total (this embedding of it is a total
function) and coerces every top-level field with the documented defaults —
invalid or missing status becomes running; non-array steps, initialPlan and
artifacts become empty; non-string notes and progress become empty; runLog
keeps exactly the entries with an integral iteration, a string agent and a
string summary, prefixing every surviving summary with its agent name and a
colon (case-insensitively); a resultType outside code, text, table is
dropped — but array elements of steps, initialPlan and artifacts are passed
through unvalidated, so the result need not be element-wise well-typed. -/
theorem c9_normalizer_defaults (raw : JVal) (g : String) :
    (rawStatusValid raw = false → (normalizeWorkflowState raw g).status = .running) ∧
    (rawIsArr (jField2 raw "state" "steps") = false →
      (normalizeWorkflowState raw g).steps = []) ∧
    (rawIsArr (jField2 raw "state" "initialPlan") = false →
      (normalizeWorkflowState raw g).initialPlan = []) ∧
    (rawIsArr (jField2 raw "state" "artifacts") = false →
      (normalizeWorkflowState raw g).artifacts = []) ∧
    (rawIsStr (jField2 raw "state" "notes") = false →
      (normalizeWorkflowState raw g).notes = "") ∧
    (rawIsStr (jField2 raw "state" "progress") = false →
      (normalizeWorkflowState raw g).progress = "") ∧
    ((normalizeWorkflowState raw g).runLog = enforceRunLogFormat
      (((rawRunLogEntries raw).filter validRunLogElem).map runLogElemEntry)) ∧
    (∀ e ∈ (normalizeWorkflowState raw g).runLog,
      startsWithStr (lowerStr e.summary) (lowerStr (e.agent ++ ":")) = true) ∧
    (rawResultTypeValid raw = false → (normalizeWorkflowState raw g).resultType = none) := by
  refine ⟨?_, ?_, ?_, ?_, ?_, ?_, ?_, ?_, ?_⟩
  · intro h
    cases hm : jField raw "status" with
    | none => simp [normalizeWorkflowState, hm]
    | some v =>
      cases v with
      | str s =>
        simp only [rawStatusValid, hm] at h
        simp [normalizeWorkflowState, hm, h]
        intro hmem
        exact absurd hmem (by simpa using h)
      | null => simp [normalizeWorkflowState, hm]
      | bool b => simp [normalizeWorkflowState, hm]
      | int n => simp [normalizeWorkflowState, hm]
      | real => simp [normalizeWorkflowState, hm]
      | arr xs => simp [normalizeWorkflowState, hm]
      | obj fs => simp [normalizeWorkflowState, hm]
  · intro h
    cases hm : jField2 raw "state" "steps" with
    | none => simp [normalizeWorkflowState, hm]
    | some v =>
      cases v with
      | arr xs => rw [hm] at h; simp [rawIsArr] at h
      | null => simp [normalizeWorkflowState, hm]
      | bool b => simp [normalizeWorkflowState, hm]
      | str s => simp [normalizeWorkflowState, hm]
      | int n => simp [normalizeWorkflowState, hm]
      | real => simp [normalizeWorkflowState, hm]
      | obj fs => simp [normalizeWorkflowState, hm]
  · intro h
    cases hm : jField2 raw "state" "initialPlan" with
    | none => simp [normalizeWorkflowState, hm]
    | some v =>
      cases v with
      | arr xs => rw [hm] at h; simp [rawIsArr] at h
      | null => simp [normalizeWorkflowState, hm]
      | bool b => simp [normalizeWorkflowState, hm]
      | str s => simp [normalizeWorkflowState, hm]
      | int n => simp [normalizeWorkflowState, hm]
      | real => simp [normalizeWorkflowState, hm]
      | obj fs => simp [normalizeWorkflowState, hm]
  · intro h
    cases hm : jField2 raw "state" "artifacts" with
    | none => simp [normalizeWorkflowState, hm]
    | some v =>
      cases v with
      | arr xs => rw [hm] at h; simp [rawIsArr] at h
      | null => simp [normalizeWorkflowState, hm]
      | bool b => simp [normalizeWorkflowState, hm]
      | str s => simp [normalizeWorkflowState, hm]
      | int n => simp [normalizeWorkflowState, hm]
      | real => simp [normalizeWorkflowState, hm]
      | obj fs => simp [normalizeWorkflowState, hm]
  · intro h
    cases hm : jField2 raw "state" "notes" with
    | none => simp [normalizeWorkflowState, hm]
    | some v =>
      cases v with
      | str s => rw [hm] at h; simp [rawIsStr] at h
      | null => simp [normalizeWorkflowState, hm]
      | bool b => simp [normalizeWorkflowState, hm]
      | arr xs => simp [normalizeWorkflowState, hm]
      | int n => simp [normalizeWorkflowState, hm]
      | real => simp [normalizeWorkflowState, hm]
      | obj fs => simp [normalizeWorkflowState, hm]
  · intro h
    cases hm : jField2 raw "state" "progress" with
    | none => simp [normalizeWorkflowState, hm]
    | some v =>
      cases v with
      | str s => rw [hm] at h; simp [rawIsStr] at h
      | null => simp [normalizeWorkflowState, hm]
      | bool b => simp [normalizeWorkflowState, hm]
      | arr xs => simp [normalizeWorkflowState, hm]
      | int n => simp [normalizeWorkflowState, hm]
      | real => simp [normalizeWorkflowState, hm]
      | obj fs => simp [normalizeWorkflowState, hm]
  · cases hm : jField raw "runLog" with
    | none => simp [normalizeWorkflowState, rawRunLogEntries, hm]
    | some v =>
      cases v with
      | arr es => simp [normalizeWorkflowState, rawRunLogEntries, hm]
      | null => simp [normalizeWorkflowState, rawRunLogEntries, hm]
      | bool b => simp [normalizeWorkflowState, rawRunLogEntries, hm]
      | str s => simp [normalizeWorkflowState, rawRunLogEntries, hm]
      | int n => simp [normalizeWorkflowState, rawRunLogEntries, hm]
      | real => simp [normalizeWorkflowState, rawRunLogEntries, hm]
      | obj fs => simp [normalizeWorkflowState, rawRunLogEntries, hm]
  · intro e he
    have hx : ∃ e0, e = enforceRunLogEntry e0 := by
      cases hm : jField raw "runLog" with
      | none => simp [normalizeWorkflowState, hm, enforceRunLogFormat] at he
      | some v =>
        cases v with
        | arr es =>
          simp only [normalizeWorkflowState, hm] at he
          simp only [enforceRunLogFormat, List.mem_map] at he
          obtain ⟨e1, _, he1⟩ := he
          exact ⟨e1, he1.symm⟩
        | null => simp [normalizeWorkflowState, hm, enforceRunLogFormat] at he
        | bool b => simp [normalizeWorkflowState, hm, enforceRunLogFormat] at he
        | str s => simp [normalizeWorkflowState, hm, enforceRunLogFormat] at he
        | int n => simp [normalizeWorkflowState, hm, enforceRunLogFormat] at he
        | real => simp [normalizeWorkflowState, hm, enforceRunLogFormat] at he
        | obj fs => simp [normalizeWorkflowState, hm, enforceRunLogFormat] at he
    obtain ⟨e0, he0⟩ := hx
    rw [he0]
    exact enforceRunLogEntry_prefixed e0
  · intro h
    cases hm : jField raw "resultType" with
    | none => simp [normalizeWorkflowState, hm]
    | some v =>
      cases v with
      | str s =>
        simp only [rawResultTypeValid, hm] at h
        have h1 : s ≠ "code" := by
          intro hs; rw [hs] at h; simp at h
        have h2 : s ≠ "text" := by
          intro hs; rw [hs] at h; simp at h
        have h3 : s ≠ "table" := by
          intro hs; rw [hs] at h; simp at h
        simp only [normalizeWorkflowState, hm]
        split
        · rename_i heq
          rw [Option.some.injEq, JVal.str.injEq] at heq
          exact absurd heq h1
        · rename_i heq
          rw [Option.some.injEq, JVal.str.injEq] at heq
          exact absurd heq h2
        · rename_i heq
          rw [Option.some.injEq, JVal.str.injEq] at heq
          exact absurd heq h3
        · rfl
      | null => simp [normalizeWorkflowState, hm]
      | bool b => simp [normalizeWorkflowState, hm]
      | int n => simp [normalizeWorkflowState, hm]
      | real => simp [normalizeWorkflowState, hm]
      | arr xs => simp [normalizeWorkflowState, hm]
      | obj fs => simp [normalizeWorkflowState, hm]

/-- A raw value exercising every defaulting rule at once. -/
def c9raw : JVal :=
  .obj [("status", .int 5),
        ("runLog", .arr [.null,
          .obj [("iteration", .int 1), ("agent", .str "Planner"),
                ("summary", .str "made plan")],
          .obj [("iteration", .real)]]),
        ("resultType", .str "banana")]

theorem c9_normalizer_defaults_witness :
    (normalizeWorkflowState c9raw "g").status = .running ∧
    (normalizeWorkflowState c9raw "g").steps = [] ∧
    (normalizeWorkflowState c9raw "g").notes = "" ∧
    (normalizeWorkflowState c9raw "g").resultType = none ∧
    (normalizeWorkflowState c9raw "g").runLog =
      [⟨1, "Planner", "Planner: made plan"⟩] :=
  have h := c9_normalizer_defaults c9raw "g"
  ⟨h.1 rfl, h.2.1 rfl, h.2.2.2.2.1 rfl, h.2.2.2.2.2.2.2.2 rfl, rfl⟩

/-- A raw value whose steps array holds a number. -/
def c9rawBad : JVal := .obj [("state", .obj [("steps", .arr [.int 42])])]

/-- C9 counterexample: the normalizer does not validate array elements, so
its output can carry a non-string inside steps — the result is not a
well-typed WorkflowState in the sense of the data model. -/
theorem c9_not_well_typed_counterexample :
    (normalizeWorkflowState c9rawBad "g").steps = [JVal.int 42] ∧
    ∀ s : String, JVal.int 42 ≠ JVal.str s := by
  refine ⟨rfl, ?_⟩
  intro s h
  cases h

end ClaimC9

section ClaimC5

/-- Behavior of the validation pass on the last step (the derived step number
equals the number of steps): the missing-artifact and final-assembly blocks
cannot fire, and the final-summary block either leaves a fully-final state
unchanged or auto-derives what it can from a README artifact and forces the
status back to running. -/
theorem validate_final_step_eq (prev ns : WorkflowState)
    (h1 : 0 < ns.state.steps.length)
    (h2 : detectStepNumber ns = ns.state.steps.length) :
    validateArtifactsAndFinals prev ns =
      (if (jsTrim ns.finalResultSummary != "" && jsTrim ns.finalResultMarkdown != "" &&
          ns.state.artifacts.any (fun a => containsSub (lowerStr a.key) "summary")) = true
       then ns
       else
        match ns.state.artifacts.find? (fun a => isReadmeKey a.key) with
        | some readme =>
          if readme.value != "" then
            { ns with
                status := .running,
                runLog := ns.runLog ++ [⟨prev.currentIteration + 1, "QA",
                  "QA: " ++ finalSummaryMissingMsg ns.state.steps.length⟩],
                state := { ns.state with
                  notes := appendNote ns.state.notes
                    (finalSummaryMissingMsg ns.state.steps.length),
                  artifacts := ns.state.artifacts ++ [⟨"result_summary.md",
                    if ns.finalResultSummary != "" then ns.finalResultSummary
                    else strTake readme.value 1200⟩] },
                finalResultMarkdown :=
                  if ns.finalResultMarkdown != "" then ns.finalResultMarkdown
                  else readme.value,
                finalResultSummary :=
                  if ns.finalResultSummary != "" then ns.finalResultSummary
                  else strTake readme.value 1200 }
          else
            { ns with
                status := .running,
                runLog := ns.runLog ++ [⟨prev.currentIteration + 1, "QA",
                  "QA: " ++ finalSummaryMissingMsg ns.state.steps.length⟩],
                state := { ns.state with
                  notes := appendNote ns.state.notes
                    (finalSummaryMissingMsg ns.state.steps.length) } }
        | none =>
          { ns with
              status := .running,
              runLog := ns.runLog ++ [⟨prev.currentIteration + 1, "QA",
                "QA: " ++ finalSummaryMissingMsg ns.state.steps.length⟩],
              state := { ns.state with
                notes := appendNote ns.state.notes
                  (finalSummaryMissingMsg ns.state.steps.length) } }) := by
  have hb : (ns.state.steps.length == ns.state.steps.length - 1) = false := by
    simp only [beq_eq_false_iff_ne]
    omega
  simp only [validateArtifactsAndFinals, h2, lt_self_iff_false, decide_False,
    Bool.and_false, Bool.false_and, Bool.and_self, if_false, hb, beq_self_eq_true,
    Bool.and_true, h1, decide_True, Bool.true_and, if_true]
  simp only [Bool.false_eq_true, if_false]
  by_cases hc : (jsTrim ns.finalResultSummary != "" && jsTrim ns.finalResultMarkdown != "" &&
      ns.state.artifacts.any (fun a => containsSub (lowerStr a.key) "summary")) = true
  · simp [hc]
  · simp only [hc, if_false]
    cases hf : ns.state.artifacts.find? (fun a => isReadmeKey a.key) with
    | none => simp [hc, hf]
    | some readme =>
      by_cases hv : readme.value != ""
      · simp [hc, hf, hv]
      · simp [hc, hf, hv]

/-- C5 (amended): on the last step, a state the validation pass leaves with
status completed was already completed as returned by the model and carries a
non-blank finalResultSummary, a non-blank finalResultMarkdown and a summary
artifact (resultType and a README-equivalent artifact are NOT enforced); and
when any of those finals is missing, the pass auto-derives the markdown and
summary from a README artifact when one with non-empty value exists
(truncating the summary to 1200 characters and adding a result_summary.md
artifact) but then sets status to running, forcing another iteration rather
than accepting completion in the same pass. -/
theorem c5_completion_finals (prev ns : WorkflowState)
    (h1 : 0 < ns.state.steps.length)
    (h2 : detectStepNumber ns = ns.state.steps.length) :
    ((validateArtifactsAndFinals prev ns).status = .completed →
      ns.status = .completed ∧
      jsTrim (validateArtifactsAndFinals prev ns).finalResultSummary ≠ "" ∧
      jsTrim (validateArtifactsAndFinals prev ns).finalResultMarkdown ≠ "" ∧
      ((validateArtifactsAndFinals prev ns).state.artifacts.any
        (fun a => containsSub (lowerStr a.key) "summary")) = true) ∧
    ((jsTrim ns.finalResultSummary != "" && jsTrim ns.finalResultMarkdown != "" &&
        ns.state.artifacts.any (fun a => containsSub (lowerStr a.key) "summary")) = false →
      (validateArtifactsAndFinals prev ns).status = .running ∧
      (∀ readme, ns.state.artifacts.find? (fun a => isReadmeKey a.key) = some readme →
        readme.value ≠ "" →
        (validateArtifactsAndFinals prev ns).finalResultMarkdown =
          (if ns.finalResultMarkdown != "" then ns.finalResultMarkdown else readme.value) ∧
        (validateArtifactsAndFinals prev ns).finalResultSummary =
          (if ns.finalResultSummary != "" then ns.finalResultSummary
           else strTake readme.value 1200) ∧
        (validateArtifactsAndFinals prev ns).state.artifacts =
          ns.state.artifacts ++ [⟨"result_summary.md",
            if ns.finalResultSummary != "" then ns.finalResultSummary
            else strTake readme.value 1200⟩])) := by
  rw [validate_final_step_eq prev ns h1 h2]
  constructor
  · intro hcomp
    by_cases hc : (jsTrim ns.finalResultSummary != "" && jsTrim ns.finalResultMarkdown != "" &&
        ns.state.artifacts.any (fun a => containsSub (lowerStr a.key) "summary")) = true
    · rw [if_pos hc] at hcomp ⊢
      simp only [Bool.and_eq_true, bne_iff_ne, ne_eq] at hc
      exact ⟨hcomp, hc.1.1, hc.1.2, by simpa using hc.2⟩
    · rw [if_neg hc] at hcomp
      exfalso
      revert hcomp
      cases hf : ns.state.artifacts.find? (fun a => isReadmeKey a.key) with
      | none => simp [hf]
      | some readme =>
        by_cases hv : readme.value != ""
        · simp [hf, hv]
        · simp [hf, hv]
  · intro hmiss
    have hc : ¬((jsTrim ns.finalResultSummary != "" && jsTrim ns.finalResultMarkdown != "" &&
        ns.state.artifacts.any (fun a => containsSub (lowerStr a.key) "summary")) = true) := by
      simp [hmiss]
    rw [if_neg hc]
    constructor
    · cases hf : ns.state.artifacts.find? (fun a => isReadmeKey a.key) with
      | none => simp [hf]
      | some readme =>
        by_cases hv : readme.value != ""
        · simp [hf, hv]
        · simp [hf, hv]
    · intro readme hf hv
      have hv' : (readme.value != "") = true := by simpa using hv
      simp [hf, hv']

/-- A last-step state that is completed with all finals present but no
resultType and no README-equivalent artifact. -/
def c5ns : WorkflowState :=
  { emptyState with
      status := .completed,
      state := { emptyState.state with
        steps := ["only step"],
        progress := "Working on step 1...",
        artifacts := [⟨"result_summary.md", "the summary"⟩] },
      finalResultMarkdown := "# Done",
      finalResultSummary := "done" }

/-- A last-step state reported completed by the model with missing finals but
an assembled README artifact. -/
def c5nsB : WorkflowState :=
  { emptyState with
      status := .completed,
      state := { emptyState.state with
        steps := ["only step"],
        progress := "Working on step 1...",
        artifacts := [⟨"README.md", "# R this is the readme body"⟩] } }

set_option maxRecDepth 100000 in
/-- C5 counterexample: the guard accepts completion on the last step with
resultType unset and no README-equivalent artifact, and when finals are
missing it auto-derives them from README.md but sets status running in the
same pass instead of accepting completed. -/
theorem c5_completion_finals_counterexample :
    (stepFinalityGuard emptyState c5ns).status = .completed ∧
    (stepFinalityGuard emptyState c5ns).resultType = none ∧
    ((stepFinalityGuard emptyState c5ns).state.artifacts.any
      (fun a => isReadmeKey a.key)) = false ∧
    (stepFinalityGuard emptyState c5nsB).status = .running ∧
    (stepFinalityGuard emptyState c5nsB).finalResultSummary =
      "# R this is the readme body" := by
  refine ⟨rfl, rfl, rfl, rfl, rfl⟩

theorem c5_completion_finals_witness :
    (validateArtifactsAndFinals emptyState c5nsB).status = .running ∧
    (validateArtifactsAndFinals emptyState c5nsB).finalResultMarkdown =
      "# R this is the readme body" :=
  have h := c5_completion_finals emptyState c5nsB (by decide) (by decide)
  have h2 := h.2 (by decide)
  ⟨h2.1, by
    have h3 := h2.2 ⟨"README.md", "# R this is the readme body"⟩ (by decide) (by decide)
    simpa using h3.1⟩

end ClaimC5

section ClaimC7

theorem append_ne_empty_of_left {a : String} (b : String) (h : a.data ≠ []) :
    a ++ b ≠ "" := by
  intro hc
  have hd := congrArg String.data hc
  rw [String.data_append] at hd
  have : a.data = [] := by
    cases he : a.data with
    | nil => rfl
    | cons c cs => rw [he] at hd; simp at hd
  exact h this

/-- C7: the retrieval function never returns the empty string; under a
well-formed query (non-empty query and corpus, at least one keyword of
length above 2), it returns the explicit no-relevant-information message
exactly when no paragraph scores positively, and otherwise returns the
header plus at most 3 positively-scoring paragraphs in descending score
order, every non-selected scoring paragraph scoring no higher than any
selected one. -/
theorem c7_rag_retrieval (query content : String) :
    executeRAG query content ≠ "" ∧
    (query ≠ "" → content ≠ "" → ragQueryWords query ≠ [] →
      (ragScoredChunks query content = [] →
        executeRAG query content =
          "No relevant information found in the document for your query.") ∧
      (ragScoredChunks query content ≠ [] →
        ∃ tops : List (String × Nat),
          executeRAG query content =
            ragHeader ++ joinStr ragSep (tops.map (fun x => x.1)) ∧
          tops ≠ [] ∧ tops.length ≤ 3 ∧
          (∀ x ∈ tops, x ∈ ragScoredChunks query content ∧ 0 < x.2) ∧
          tops.Pairwise (fun a b => b.2 ≤ a.2) ∧
          (∀ y ∈ ragScoredChunks query content, y ∉ tops →
            ∀ x ∈ tops, y.2 ≤ x.2))) := by
  constructor
  · by_cases h1 : (query == "" || content == "") = true
    · simp only [executeRAG, h1, if_true]
      decide
    · by_cases h2 : ((ragQueryWords query).length == 0) = true
      · simp only [executeRAG, h1, Bool.false_eq_true, if_false, h2, if_true]
        decide
      · simp only [executeRAG, h1, Bool.false_eq_true, if_false, h2]
        by_cases h3 : ((((ragScoredChunks query content).insertionSort ragDescRel).take 3).map
            (fun x => x.1)).isEmpty = true
        · simp only [h3, if_true]
          decide
        · simp only [h3, Bool.false_eq_true, if_false]
          exact append_ne_empty_of_left _ (by decide)
  · intro hq hc hw
    have h1 : (query == "" || content == "") = false := by
      simp [hq, hc]
    have h2 : ((ragQueryWords query).length == 0) = false := by
      simp only [beq_eq_false_iff_ne, ne_eq]
      intro hlen
      exact hw (List.length_eq_zero.mp hlen)
    constructor
    · intro hempty
      simp [executeRAG, h1, h2, hempty]
    · intro hne
      refine ⟨((ragScoredChunks query content).insertionSort ragDescRel).take 3,
        ?_, ?_, ?_, ?_, ?_, ?_⟩
      · have h3 : ((((ragScoredChunks query content).insertionSort ragDescRel).take 3).map
            (fun x => x.1)).isEmpty = false := by
          simp only [List.isEmpty_eq_false_iff_exists_mem]
          have hsne : (ragScoredChunks query content).insertionSort ragDescRel ≠ [] := by
            intro hnil
            have hp := List.perm_insertionSort ragDescRel (ragScoredChunks query content)
            rw [hnil] at hp
            exact hne hp.nil_eq.symm
          obtain ⟨z, zs, hz⟩ := List.exists_cons_of_ne_nil hsne
          exact ⟨z.1, by rw [hz]; simp⟩
        simp only [executeRAG, h1, h2, Bool.false_eq_true, if_false, h3]
      · intro hnil
        have hp := List.perm_insertionSort ragDescRel (ragScoredChunks query content)
        have hsne : (ragScoredChunks query content).insertionSort ragDescRel ≠ [] := by
          intro hnil2
          rw [hnil2] at hp
          exact hne hp.nil_eq.symm
        rw [List.take_eq_nil_iff] at hnil
        rcases hnil with h | h
        · exact absurd h (by norm_num)
        · exact hsne h
      · exact List.length_take_le _ _
      · intro x hx
        have hmem : x ∈ (ragScoredChunks query content).insertionSort ragDescRel :=
          List.mem_of_mem_take hx
        have hmem2 : x ∈ ragScoredChunks query content :=
          (List.perm_insertionSort ragDescRel (ragScoredChunks query content)).mem_iff.mp hmem
        refine ⟨hmem2, ?_⟩
        have := List.mem_filter.mp hmem2
        simpa using this.2
      · have hsorted : ((ragScoredChunks query content).insertionSort ragDescRel).Pairwise
            ragDescRel :=
          List.sorted_insertionSort ragDescRel (ragScoredChunks query content)
        have htake : (((ragScoredChunks query content).insertionSort ragDescRel).take 3).Pairwise
            ragDescRel :=
          hsorted.sublist (List.take_sublist _ _)
        exact htake.imp (fun h => h)
      · intro y hy hynot x hx
        have hymem : y ∈ (ragScoredChunks query content).insertionSort ragDescRel :=
          (List.perm_insertionSort ragDescRel (ragScoredChunks query content)).mem_iff.mpr hy
        have hsplit := List.take_append_drop 3
          ((ragScoredChunks query content).insertionSort ragDescRel)
        have hydrop : y ∈ ((ragScoredChunks query content).insertionSort ragDescRel).drop 3 := by
          rcases (List.mem_append.mp (by rw [hsplit]; exact hymem)) with h | h
          · exact absurd h hynot
          · exact h
        have hsorted : ((ragScoredChunks query content).insertionSort ragDescRel).Pairwise
            ragDescRel :=
          List.sorted_insertionSort ragDescRel (ragScoredChunks query content)
        have hpw : (((ragScoredChunks query content).insertionSort ragDescRel).take 3 ++
            ((ragScoredChunks query content).insertionSort ragDescRel).drop 3).Pairwise
            ragDescRel := by
          rw [hsplit]
          exact hsorted
        exact (List.pairwise_append.mp hpw).2.2 x hx y hydrop

/-- A small corpus with exactly one paragraph containing the query keyword. -/
def c7corpus : String :=
  "short\n\nthe needle is in this long paragraph\n\nnothing here at all"

theorem c7_rag_retrieval_witness :
    executeRAG "needle thread" c7corpus ≠ "" ∧
    ((ragScoredChunks "needle thread" c7corpus = [] →
        executeRAG "needle thread" c7corpus =
          "No relevant information found in the document for your query.") ∧
      (ragScoredChunks "needle thread" c7corpus ≠ [] →
        ∃ tops : List (String × Nat),
          executeRAG "needle thread" c7corpus =
            ragHeader ++ joinStr ragSep (tops.map (fun x => x.1)) ∧
          tops ≠ [] ∧ tops.length ≤ 3 ∧
          (∀ x ∈ tops, x ∈ ragScoredChunks "needle thread" c7corpus ∧ 0 < x.2) ∧
          tops.Pairwise (fun a b => b.2 ≤ a.2) ∧
          (∀ y ∈ ragScoredChunks "needle thread" c7corpus, y ∉ tops →
            ∀ x ∈ tops, y.2 ≤ x.2))) :=
  have h := c7_rag_retrieval "needle thread" c7corpus
  ⟨h.1, h.2 (by decide) (by decide) (by decide)⟩

end ClaimC7

section ClaimC8

theorem containsChars_append_left (pat s : List Char) {t : List Char}
    (h : containsChars pat t = true) : containsChars pat (s ++ t) = true := by
  induction s with
  | nil => simpa using h
  | cons c cs ih =>
    show (pat.isPrefixOf (c :: (cs ++ t)) || containsChars pat (cs ++ t)) = true
    rw [ih]
    simp

theorem containsSub_append_left (s : String) {t pat : String}
    (h : containsSub t pat = true) : containsSub (s ++ t) pat = true := by
  show containsChars pat.data (s ++ t).data = true
  rw [String.data_append]
  exact containsChars_append_left pat.data s.data h

theorem containsSub_self (s : String) : containsSub s s = true := by
  show containsChars s.data s.data = true
  have h := containsChars_pre s.data [] []
  simpa using h

theorem joinStr_contains (sep : String) : ∀ (l : List String), ∀ x ∈ l,
    containsSub (joinStr sep l) x = true := by
  intro l
  induction l with
  | nil => intro x hx; cases hx
  | cons a l ih =>
    intro x hx
    cases l with
    | nil =>
      have hxa : x = a := by simpa using hx
      subst hxa
      exact containsSub_self x
    | cons b l2 =>
      rcases List.mem_cons.mp hx with hxa | hxm
      · subst hxa
        show containsChars x.data (x ++ sep ++ joinStr sep (b :: l2)).data = true
        rw [String.data_append, String.data_append, List.append_assoc]
        exact containsChars_pre x.data [] _
      · exact containsSub_append_left (a ++ sep) (ih x hxm)

theorem ragScore_pos_words {w : List String} {p : String}
    (h : 0 < ragScore w p) : w ≠ [] := by
  intro hw
  subst hw
  simp [ragScore] at h

/-- C8 (amended): when the post-model state carries a rag_query artifact and
the combined corpus of the remaining artifacts (plus any truthy knowledge
text) is non-blank, the rag branch removes every rag_query artifact, appends
exactly one new rag_results artifact holding the retrieval output — so the
rag_results count grows by one over whatever rag_results artifacts were
already present, rather than being exactly one — and appends the search note
and the Worker run-log entry.  A paragraph of the corpus sharing a keyword
with the query is guaranteed to appear in the retrieval output only when at
most 3 paragraphs score positively, the retrieval keeping just the top 3. -/
theorem c8_rag_round_trip (ragContent : Option String) (i : Int)
    (ns : WorkflowState) (rq : Artifact) (A1 : List Artifact) (corpus : String)
    (hA1 : A1 = ns.state.artifacts.filter (fun a => a.key != "rag_query"))
    (hcorp : corpus = ragCorpus ragContent A1)
    (hfind : ns.state.artifacts.find? (fun a => a.key == "rag_query") = some rq)
    (hne : jsTrim corpus ≠ "") :
    (applyRagTool ragContent i ns).state.artifacts =
      A1 ++ [⟨"rag_results", executeRAG rq.value corpus⟩] ∧
    (∀ a ∈ (applyRagTool ragContent i ns).state.artifacts, a.key ≠ "rag_query") ∧
    ((applyRagTool ragContent i ns).state.artifacts.filter
      (fun a => a.key == "rag_results")).length =
      (A1.filter (fun a => a.key == "rag_results")).length + 1 ∧
    (applyRagTool ragContent i ns).state.notes = appendNote ns.state.notes
      ("Search completed for " ++ quoteStr rq.value ++ ". Results in 'rag_results'.") ∧
    (applyRagTool ragContent i ns).runLog = ns.runLog ++
      [⟨i, "Worker", "RAG search for " ++ quoteStr rq.value ++ " added rag_results"⟩] ∧
    (∀ p ∈ ragChunks corpus, 0 < ragScore (ragQueryWords rq.value) p →
      (ragScoredChunks rq.value corpus).length ≤ 3 →
      containsSub (executeRAG rq.value corpus) p = true) := by
  have hbne : (jsTrim corpus != "") = true := bne_iff_ne.mpr hne
  simp only [applyRagTool, hfind]
  rw [← hA1, ← hcorp, if_pos hbne]
  refine ⟨rfl, ?_, ?_, rfl, rfl, ?_⟩
  · intro a ha
    rcases List.mem_append.mp ha with h | h
    · rw [hA1] at h
      simpa using (List.mem_filter.mp h).2
    · have ha2 := List.mem_singleton.mp h
      subst ha2
      show ("rag_results" : String) ≠ "rag_query"
      decide
  · rw [List.filter_append]
    simp
  · intro p hp hscore hlen
    have hw : ragQueryWords rq.value ≠ [] := ragScore_pos_words hscore
    have hq0 : ¬ (rq.value = "") := by
      intro h0
      rw [h0] at hw
      exact hw (by decide)
    have hc0 : ¬ (corpus = "") := by
      intro h0
      have hcz : ragChunks ("" : String) = [] := by decide
      rw [h0, hcz] at hp
      exact (List.not_mem_nil p) hp
    have h1 : (rq.value == "" || corpus == "") = false := by
      simp [hq0, hc0]
    have h2 : ((ragQueryWords rq.value).length == 0) = false := by
      simp only [beq_eq_false_iff_ne, ne_eq]
      intro hlen0
      exact hw (List.length_eq_zero.mp hlen0)
    have hmem : (p, ragScore (ragQueryWords rq.value) p) ∈
        ragScoredChunks rq.value corpus := by
      refine List.mem_filter.mpr ⟨List.mem_map.mpr ⟨p, hp, rfl⟩, ?_⟩
      simpa using hscore
    have hmem2 : (p, ragScore (ragQueryWords rq.value) p) ∈
        (ragScoredChunks rq.value corpus).insertionSort ragDescRel :=
      (List.perm_insertionSort ragDescRel _).mem_iff.mpr hmem
    have hlen2 : ((ragScoredChunks rq.value corpus).insertionSort ragDescRel).length ≤ 3 := by
      rw [(List.perm_insertionSort ragDescRel _).length_eq]
      exact hlen
    have htake : ((ragScoredChunks rq.value corpus).insertionSort ragDescRel).take 3 =
        (ragScoredChunks rq.value corpus).insertionSort ragDescRel :=
      List.take_of_length_le hlen2
    have hptop : p ∈ ((((ragScoredChunks rq.value corpus).insertionSort ragDescRel).take 3).map
        (fun x => x.1)) := by
      rw [htake]
      exact List.mem_map.mpr ⟨_, hmem2, rfl⟩
    have hne2 : (((((ragScoredChunks rq.value corpus).insertionSort ragDescRel).take 3).map
        (fun x => x.1))).isEmpty = false := by
      rw [List.isEmpty_eq_false_iff_exists_mem]
      exact ⟨p, hptop⟩
    have hrag : executeRAG rq.value corpus = ragHeader ++
        joinStr ragSep ((((ragScoredChunks rq.value corpus).insertionSort ragDescRel).take 3).map
          (fun x => x.1)) := by
      simp only [executeRAG, h1, h2, Bool.false_eq_true, if_false, hne2]
    rw [hrag]
    exact containsSub_append_left ragHeader (joinStr_contains ragSep _ p hptop)

/-- A post-model state carrying a rag_query artifact beside one document
artifact. -/
def c8state : WorkflowState :=
  { emptyState with state := { emptyState.state with
      artifacts := [⟨"doc1", "the needle is in this long paragraph"⟩,
        ⟨"rag_query", "needle thread"⟩] } }

/-- The corpus the rag branch builds from c8state. -/
def c8corpusW : String := "[doc1]\nthe needle is in this long paragraph\n\n"

theorem c8_rag_round_trip_witness :
    (applyRagTool none 1 c8state).state.artifacts =
      [⟨"doc1", "the needle is in this long paragraph"⟩] ++
      [⟨"rag_results", executeRAG "needle thread" c8corpusW⟩] ∧
    containsSub (executeRAG "needle thread" c8corpusW)
      "[doc1]\nthe needle is in this long paragraph" = true :=
  have h := c8_rag_round_trip none 1 c8state ⟨"rag_query", "needle thread"⟩
    [⟨"doc1", "the needle is in this long paragraph"⟩] c8corpusW
    (by decide) (by decide) (by decide) (by decide)
  ⟨h.1, h.2.2.2.2.2 "[doc1]\nthe needle is in this long paragraph"
    (by decide) (by decide) (by decide)⟩

/-- A post-model state that already holds a rag_results artifact beside the
rag_query artifact and a document artifact. -/
def c8stateBad : WorkflowState :=
  { emptyState with state := { emptyState.state with
      artifacts := [⟨"rag_results", "stale results from an earlier search"⟩,
        ⟨"doc1", "the needle is in this long paragraph"⟩,
        ⟨"rag_query", "needle thread"⟩] } }

theorem c8_not_exactly_one_counterexample :
    ((applyRagTool none 1 c8stateBad).state.artifacts.filter
      (fun a => a.key == "rag_results")).length = 2 := by
  decide

end ClaimC8

section ClaimC10

theorem applyStepGuards_artifacts (i : Int) (highest : Nat) (ns0 : WorkflowState) :
    ∃ inj, (applyStepGuards i highest ns0).1.state.artifacts =
        ns0.state.artifacts ++ inj ∧
      ∀ a ∈ inj, a.key = "Plan.md" ∨ a.key = "Requirements.md" := by
  obtain ⟨injP, hP, hPk⟩ := injectPlanArtifact_artifacts
    (fillInitialPlan (stepBackwardCorrection i highest ns0).1)
  obtain ⟨injR, hR, hRk⟩ := injectRequirementsArtifact_artifacts
    (injectPlanArtifact (fillInitialPlan (stepBackwardCorrection i highest ns0).1))
  refine ⟨injP ++ injR, ?_, ?_⟩
  · show (injectRequirementsArtifact (injectPlanArtifact
        (fillInitialPlan (stepBackwardCorrection i highest ns0).1))).state.artifacts = _
    rw [hR, hP, fillInitialPlan_artifacts, stepBackwardCorrection_artifacts,
      List.append_assoc]
  · intro a ha
    rcases List.mem_append.mp ha with h | h
    · exact Or.inl (hPk a h)
    · exact Or.inr (hRk a h)

set_option maxHeartbeats 2000000 in
/-- C10 (amended): in every loop iteration the artifacts newly produced by
the model (relative to the previous committed artifact list, compared by key
and value) are withheld in the pending buffer whenever the last entry of the
merged run log, as it stands at the commit point before any later corrective
appends, is not attributed to QA — the committed artifacts are then the
previous list plus only the auto-injected Plan.md and Requirements.md
artifacts.  When that last entry is attributed to QA, the pending buffer and
the new artifacts are merged into the committed list (again plus possible
auto-injections) and the buffer empties. -/
theorem c10_deferred_artifact_commit (i : Int) (cur ns : WorkflowState)
    (highest : Nat) (pending : List Artifact) :
    ((((mergeAndPrepare i cur ns).runLog.getLast?).map (fun e => e.agent) ≠ some "QA") →
      (commitIterationResult i cur highest pending ns).2.2 =
        pending ++ (mergeAndPrepare i cur ns).state.artifacts.filter
          (fun a => !(cur.state.artifacts.any
            (fun p => p.key == a.key && p.value == a.value))) ∧
      ∃ inj, (commitIterationResult i cur highest pending ns).1.state.artifacts =
          cur.state.artifacts ++ inj ∧
        ∀ a ∈ inj, a.key = "Plan.md" ∨ a.key = "Requirements.md") ∧
    ((((mergeAndPrepare i cur ns).runLog.getLast?).map (fun e => e.agent) = some "QA") →
      (commitIterationResult i cur highest pending ns).2.2 = [] ∧
      ∃ inj, (commitIterationResult i cur highest pending ns).1.state.artifacts =
          (cur.state.artifacts ++ pending ++
            (mergeAndPrepare i cur ns).state.artifacts.filter
              (fun a => !(cur.state.artifacts.any
                (fun p => p.key == a.key && p.value == a.value)))) ++ inj ∧
        ∀ a ∈ inj, a.key = "Plan.md" ∨ a.key = "Requirements.md") := by
  constructor
  · intro hne
    have hb : ((((mergeAndPrepare i cur ns).runLog.getLast?).map (fun e => e.agent) !=
        some "QA")) = true := by
      simp only [bne_iff_ne, ne_eq]
      exact hne
    have hca : commitArtifacts cur.state.artifacts pending (mergeAndPrepare i cur ns) =
        ({ mergeAndPrepare i cur ns with
            state := { (mergeAndPrepare i cur ns).state with
              artifacts := cur.state.artifacts } },
         pending ++ (mergeAndPrepare i cur ns).state.artifacts.filter
          (fun a => !(cur.state.artifacts.any
            (fun p => p.key == a.key && p.value == a.value)))) := by
      simp only [commitArtifacts]
      rw [if_pos hb]
    constructor
    · simp only [commitIterationResult, hca]
    · simp only [commitIterationResult, hca]
      obtain ⟨inj, h1, h2⟩ := applyStepGuards_artifacts i highest
        ({ mergeAndPrepare i cur ns with
            state := { (mergeAndPrepare i cur ns).state with
              artifacts := cur.state.artifacts } })
      exact ⟨inj, h1, h2⟩
  · intro heq
    have hb : ((((mergeAndPrepare i cur ns).runLog.getLast?).map (fun e => e.agent) !=
        some "QA")) = false := by
      simp only [bne_eq_false_iff_eq]
      exact heq
    have hca : commitArtifacts cur.state.artifacts pending (mergeAndPrepare i cur ns) =
        ({ mergeAndPrepare i cur ns with
            state := { (mergeAndPrepare i cur ns).state with
              artifacts := cur.state.artifacts ++ pending ++
                (mergeAndPrepare i cur ns).state.artifacts.filter
                  (fun a => !(cur.state.artifacts.any
                    (fun p => p.key == a.key && p.value == a.value))) } }, []) := by
      simp only [commitArtifacts]
      rw [if_neg (by simp [hb])]
    constructor
    · simp only [commitIterationResult, hca]
    · simp only [commitIterationResult, hca]
      obtain ⟨inj, h1, h2⟩ := applyStepGuards_artifacts i highest
        ({ mergeAndPrepare i cur ns with
            state := { (mergeAndPrepare i cur ns).state with
              artifacts := cur.state.artifacts ++ pending ++
                (mergeAndPrepare i cur ns).state.artifacts.filter
                  (fun a => !(cur.state.artifacts.any
                    (fun p => p.key == a.key && p.value == a.value))) } })
      exact ⟨inj, h1, h2⟩

/-- Previous committed state of the concrete deferred-commit run. -/
def c10cur : WorkflowState :=
  { emptyState with state := { emptyState.state with artifacts := [⟨"A", "1"⟩] } }

/-- Model-returned state of the concrete deferred-commit run: a Worker turn
adding one artifact. -/
def c10ns : WorkflowState :=
  { emptyState with
      runLog := [⟨1, "Worker", "did work"⟩],
      state := { emptyState.state with artifacts := [⟨"A", "1"⟩, ⟨"B", "2"⟩] } }

theorem c10_deferred_artifact_commit_witness :
    (commitIterationResult 1 c10cur 0 [] c10ns).2.2 =
      [] ++ (mergeAndPrepare 1 c10cur c10ns).state.artifacts.filter
        (fun a => !(c10cur.state.artifacts.any
          (fun p => p.key == a.key && p.value == a.value))) ∧
    ∃ inj, (commitIterationResult 1 c10cur 0 [] c10ns).1.state.artifacts =
        c10cur.state.artifacts ++ inj ∧
      ∀ a ∈ inj, a.key = "Plan.md" ∨ a.key = "Requirements.md" :=
  (c10_deferred_artifact_commit 1 c10cur c10ns 0 []).1 (by decide)

/-- Model-returned state of a non-QA turn that carries steps, triggering the
Plan.md and Requirements.md injections. -/
def c10nsB : WorkflowState :=
  { emptyState with
      runLog := [⟨1, "Worker", "did work"⟩],
      state := { emptyState.state with
        steps := ["a", "b"],
        progress := "Working on step 1...",
        artifacts := [⟨"B", "2"⟩] } }

theorem c10_artifacts_not_kept_counterexample :
    (((mergeAndPrepare 1 emptyState c10nsB).runLog.getLast?).map (fun e => e.agent) ≠
      some "QA") ∧
    (commitIterationResult 1 emptyState 0 [] c10nsB).1.state.artifacts ≠
      emptyState.state.artifacts := by
  refine ⟨by decide, by decide⟩

end ClaimC10

end Workflow
